import Mathlib

/-!
Verification development for the reliable delivery monitor of
`ax-mcp-monitor` (`src/reliable_monitor.py`).

The Python source is shallowly embedded: SQLite rows become a list of
records keyed by `id`, wall-clock instants and delays are rationals
counting seconds, random draws and external collaborators (transport,
plugin) are passed in as explicit arguments, and the regular expressions
that the source compiles are replaced by executable character-list
matchers implementing exactly the behaviour of the compiled patterns
(including the doubled backslashes that appear in some of the source
string literals).
-/

namespace AxMonitor

/-- Message lifecycle states, mirroring `MessageStatus` in
`reliable_monitor.py`. -/
inductive MessageStatus where
  | pending
  | processing
  | completed
  | failed
  | dead_letter
deriving DecidableEq, Repr

/-- One persisted message row, mirroring the dataclass `StoredMessage`.
`created_at` / `processed_at` are seconds on the wall clock. -/
structure StoredMessage where
  id : String
  raw_content : String
  parsed_author : Option String
  parsed_mention : Option String
  sender_handle : Option String
  status : MessageStatus
  created_at : ℚ
  processed_at : Option ℚ
  retry_count : ℕ
  error_message : Option String
deriving DecidableEq, Repr

/-- The `messages` table of `ReliableMessageStore`; `id` is the primary
key, so a well-formed store has pairwise distinct ids. -/
abbrev Store := List StoredMessage

/-- Row lookup by primary key (`SELECT ... WHERE id = ?`). -/
def lookupId (s : Store) (id : String) : Option StoredMessage :=
  s.find? (fun m => m.id == id)

/-- `ReliableMessageStore.store_message`: `INSERT OR REPLACE` keyed on
`id`. -/
def storeMessage (s : Store) (m : StoredMessage) : Store :=
  if s.any (fun r => r.id == m.id) then
    s.map (fun r => if r.id == m.id then m else r)
  else
    s ++ [m]

/-- The statuses for which `update_message_status` stamps
`processed_at`. -/
def statusTerminal (st : MessageStatus) : Bool :=
  st == .completed || st == .dead_letter

/-- `ReliableMessageStore.update_message_status`: sets the status, stamps
`processed_at` only for COMPLETED or DEAD_LETTER (clearing it to NULL
otherwise), and overwrites `error_message` with the given value (NULL by
default at the call sites that pass no error). -/
def updateMessageStatus (s : Store) (id : String) (st : MessageStatus)
    (err : Option String) (now : ℚ) : Store :=
  s.map (fun r =>
    if r.id == id then
      { r with
        status := st
        processed_at := if statusTerminal st then some now else none
        error_message := err }
    else r)

/-- `ReliableMessageStore.increment_retry_count`: bumps the counter and
returns the new value read back from the table (0 when the row is
missing). -/
def incrementRetry (s : Store) (id : String) : Store × ℕ :=
  let s' := s.map (fun r =>
    if r.id == id then { r with retry_count := r.retry_count + 1 } else r)
  (s', (lookupId s' id).elim 0 (fun m => m.retry_count))

/-- `ReliableMessageStore.get_pending_messages`:
`WHERE status IN ('pending', 'failed') ORDER BY created_at ASC`. -/
def getPendingMessages (s : Store) : List StoredMessage :=
  (s.filter (fun m => m.status == .pending || m.status == .failed)).insertionSort
    (fun a b => a.created_at ≤ b.created_at)

/-- `ReliableMonitor._is_duplicate_message`:
`SELECT id FROM messages WHERE id = ?` followed by a non-empty check. -/
def isDuplicateMessage (s : Store) (id : String) : Bool :=
  (lookupId s id).isSome

/-- `ExponentialBackoff` with the constructor defaults used by
`ReliableMonitor.__init__` (`self.backoff = ExponentialBackoff()`). -/
structure ExponentialBackoff where
  base_delay : ℚ := 1
  max_delay : ℚ := 300
  multiplier : ℚ := 2
  jitter : Bool := true
deriving Repr

/-- The clamp `min(base_delay * multiplier ** retry_count, max_delay)`
computed by `get_delay` before jitter; the source draws its jitter from
`uniform(-0.25 * d, 0.25 * d)` where `d` is this value. -/
def preJitterDelay (b : ExponentialBackoff) (retry_count : ℕ) : ℚ :=
  min (b.base_delay * b.multiplier ^ retry_count) b.max_delay

/-- `ExponentialBackoff.get_delay`; the random jitter draw `u` is passed
in explicitly (the source samples it from
`uniform(-0.25 * delay, 0.25 * delay)` when jitter is enabled). -/
def getDelay (b : ExponentialBackoff) (retry_count : ℕ) (u : ℚ) : ℚ :=
  let delay := preJitterDelay b retry_count
  let delay := if b.jitter then delay + u else delay
  max delay (1/10)

/-- The backoff object the monitor constructs (all defaults). -/
def monitorBackoff : ExponentialBackoff := {}

/-- `HealthChecker` state; `check_interval` defaults to 60 seconds and
`max_failures` is fixed at 3 by `__init__`. -/
structure HealthChecker where
  check_interval : ℚ := 60
  last_successful_check : ℚ
  consecutive_failures : ℕ
  max_failures : ℕ := 3
deriving Repr

/-- `HealthChecker.health_check`. Returns the updated state, the boolean
result, and whether a probe was actually issued against the transport.
`inflight` is what `client.has_inflight_request()` reports; `probeOk` is
the outcome the probe would have had (a raised exception counts as
`false`). -/
def healthCheck (hc : HealthChecker) (inflight : Bool) (probeOk : Bool)
    (now : ℚ) : HealthChecker × Bool × Bool :=
  if inflight then
    ({ hc with last_successful_check := now, consecutive_failures := 0 },
      true, false)
  else if probeOk then
    ({ hc with last_successful_check := now, consecutive_failures := 0 },
      true, true)
  else
    ({ hc with consecutive_failures := hc.consecutive_failures + 1 },
      false, true)

/-- `HealthChecker.is_healthy`. -/
def isHealthy (hc : HealthChecker) (now : ℚ) : Bool :=
  decide (hc.consecutive_failures < hc.max_failures) &&
  decide (now - hc.last_successful_check < hc.check_interval * 2)

/-! ### Character and string helpers

The Python source works on `str`; we work on `List Char`.  Handles and
markers are ASCII, so ASCII lowering is a faithful model of `str.lower`
and `re.IGNORECASE` on the inputs that occur (the emoji in the banner
text are caseless). -/

/-- The character class `[0-9A-Za-z_\-]` (single backslash in the
source), used by the self-handle boundary lookarounds of
`ReliableMonitor.initialize` and by `_resolve_sender_handle`. -/
def wordChar (c : Char) : Bool :=
  c.isDigit || c.isUpper || c.isLower || c == '_' || c == '-'

/-- The class of `@[0-9A-Za-z_\\-]+` as written (with a doubled
backslash inside a raw string) in `_parse_message` and
`_extract_sender_handle`: besides digits, letters, underscore and dash
it also contains a literal backslash. -/
def mentionChar (c : Char) : Bool :=
  c.isDigit || c.isUpper || c.isLower || c == '_' || c == '\\' || c == '-'

/-- ASCII case folding, modelling `str.lower` / `re.IGNORECASE` on the
ASCII handles this code manipulates. -/
def lowerList (s : List Char) : List Char := s.map Char.toLower

def lowerStr (s : String) : String := String.mk (lowerList s.data)

/-- Case-insensitive character comparison. -/
def caseEqChar (c d : Char) : Bool := c.toLower == d.toLower

/-- Case-insensitive test that `pat` matches the beginning of `s`. -/
def ciHeadMatch : List Char → List Char → Bool
  | [], _ => true
  | _ :: _, [] => false
  | c :: cs, d :: ds => caseEqChar c d && ciHeadMatch cs ds

/-- A position neighbouring a candidate match passes the negative
lookaround when it is the edge of the string or a non-word character. -/
def boundaryOk : Option Char → Bool
  | none => true
  | some c => !wordChar c

/-- One position of the self-handle pattern
`(?<![0-9A-Za-z_\-])handle(?![0-9A-Za-z_\-])` (case-insensitive):
`prev` is the character before the position in the original string. -/
def matchHere (hl : List Char) (prev : Option Char) (s : List Char) : Bool :=
  ciHeadMatch hl s && boundaryOk prev && boundaryOk (s.drop hl.length).head?

/-- `pattern.search`: does the pattern match at some position? -/
def anyMatch (hl : List Char) : Option Char → List Char → Bool
  | prev, [] => matchHere hl prev []
  | prev, c :: rest => matchHere hl prev (c :: rest) || anyMatch hl (some c) rest

/-- `pattern.sub(marker, s)`: the left-to-right scan of `re.sub`, which
replaces each non-overlapping match with `marker` and copies everything
else; the lookbehind always inspects the original text, so `prev` is
threaded through replacements as the last consumed original
character. -/
def subScanGo (hl marker : List Char) : ℕ → Option Char → List Char → List Char
  | 0, _, _ => []
  | _, _, [] => []
  | fuel+1, prev, c :: rest =>
    if matchHere hl prev (c :: rest) then
      marker ++ subScanGo hl marker fuel
        (some ((c :: rest).getD (hl.length - 1) c))
        (List.drop (hl.length - 1) rest)
    else
      c :: subScanGo hl marker fuel (some c) rest

/-- Entry point: every step consumes at least one character, so the
remaining length is enough fuel. -/
def subScan (hl marker : List Char) (prev : Option Char) (s : List Char) :
    List Char :=
  subScanGo hl marker s.length prev s

/-- The ASCII whitespace set stripped by Python `str.strip` /
`str.split`. -/
def pyWhitespace (c : Char) : Bool :=
  c == ' ' || c == '\t' || c == '\n' || c == '\r' ||
  c == Char.ofNat 11 || c == Char.ofNat 12

/-- `str.rstrip()` (trailing whitespace only). -/
def rstripList (s : List Char) : List Char :=
  (s.reverse.dropWhile pyWhitespace).reverse

/-- Exact (case-sensitive) test that `pat` matches the beginning of
`s`. -/
def headEq : List Char → List Char → Bool
  | [], _ => true
  | _ :: _, [] => false
  | c :: cs, d :: ds => c == d && headEq cs ds

/-- Python substring containment (the `in` operator on `str`). -/
def hasSub (pat : List Char) : List Char → Bool
  | [] => headEq pat []
  | c :: rest => headEq pat (c :: rest) || hasSub pat (rest)

/-- `str.strip(chars)` with an arbitrary character set. -/
def stripSet (p : Char → Bool) (s : List Char) : List Char :=
  ((s.dropWhile p).reverse.dropWhile p).reverse

/-- `str.strip()` (both ends, whitespace). -/
def stripWs (s : List Char) : List Char := stripSet pyWhitespace s

/-- Python `str.replace(pat, repl)`: every non-overlapping occurrence,
left to right (each step consumes at least one character, so the length
is enough fuel). -/
def replaceAllGo (pat repl : List Char) : ℕ → List Char → List Char
  | 0, _ => []
  | _, [] => []
  | fuel+1, c :: rest =>
    if !pat.isEmpty && headEq pat (c :: rest) then
      repl ++ replaceAllGo pat repl fuel (List.drop (pat.length - 1) rest)
    else
      c :: replaceAllGo pat repl fuel rest

def replaceAll (pat repl s : List Char) : List Char :=
  replaceAllGo pat repl s.length s

/-- Python `str.split(sep)`: split at every non-overlapping occurrence
of the (nonempty) separator, keeping empty fields. -/
def splitOnGo (sep : List Char) : ℕ → List Char → List Char →
    List (List Char)
  | 0, acc, _ => [acc.reverse]
  | _, acc, [] => [acc.reverse]
  | fuel+1, acc, c :: rest =>
    if !sep.isEmpty && headEq sep (c :: rest) then
      acc.reverse :: splitOnGo sep fuel [] (List.drop (sep.length - 1) rest)
    else
      splitOnGo sep fuel (c :: acc) rest

def splitOnList (sep s : List Char) : List (List Char) :=
  splitOnGo sep s.length [] s

/-- The redaction marker substituted for self-mentions. -/
def markerChars : List Char := "[self-mention-blocked]".data

/-- The penalty annotation appended to a sanitized response (the source
concatenates two string literals). -/
def penaltyBase : String :=
  "⚠️ PROTOCOL PENALTY: Self-mentions are disallowed. This turn loses a point."

/-- `ReliableMonitor._enforce_conversation_protocol`.  `hl` is the
character list of `agent_handle_lower` (the compiled pattern is assumed
set, as `initialize` always sets it) and `vc` is
`self.self_mention_violation_count`; returns the new count and the text
actually dispatched. -/
def enforceConversationProtocol (hl : List Char) (vc : ℕ)
    (response : String) : ℕ × String :=
  if response = "" then (vc, response)
  else if anyMatch hl none (lowerList response.data) then
    let vc' := vc + 1
    let sanitized := subScan hl markerChars none response.data
    let penalty :=
      penaltyBase ++ (if 3 ≤ vc' then " #protocol-violation" else "")
    (vc', String.mk (rstripList sanitized) ++ "\n" ++ penalty)
  else (vc, response)

/-! ### The mention parser (`_parse_message` and friends)

The source compiles its parsing regexes from raw strings whose
backslashes are doubled, so the escape sequences do not mean what the
comments suggest: `\x5c\x5cs*` matches a literal backslash followed by
repeated letters `s`, and the blob is split on the two-character text
sequence backslash-`n` rather than on newline characters.  The
definitions below implement exactly those compiled patterns. -/


/-- `findall` / scanning of `@[0-9A-Za-z_\\-]+` (the doubled-backslash
class `mentionChar`): at each `@` take the maximal nonempty run of
class characters; matches do not overlap. -/
def findMentionsGo : ℕ → List Char → List String
  | 0, _ => []
  | _, [] => []
  | fuel+1, c :: rest =>
    if c == '@' then
      let run := rest.takeWhile mentionChar
      if run.isEmpty then findMentionsGo fuel rest
      else String.mk ('@' :: run) ::
        findMentionsGo fuel (rest.dropWhile mentionChar)
    else findMentionsGo fuel rest

def findMentions (s : List Char) : List String := findMentionsGo s.length s

/-- `MENTION_HANDLE_PATTERN.search`: the first `@`-token, if any. -/
def firstMention : List Char → Option String
  | [] => none
  | c :: rest =>
    if c == '@' then
      let run := rest.takeWhile mentionChar
      if run.isEmpty then firstMention rest
      else some (String.mk ('@' :: run))
    else firstMention rest

/-- `re.findall(r"@[0-9A-Za-z_\-]+", text)` as used by
`_resolve_sender_handle` (single backslash: the class is `wordChar`,
without a literal backslash). -/
def findPlainMentionsGo : ℕ → List Char → List String
  | 0, _ => []
  | _, [] => []
  | fuel+1, c :: rest =>
    if c == '@' then
      let run := rest.takeWhile wordChar
      if run.isEmpty then findPlainMentionsGo fuel rest
      else String.mk ('@' :: run) ::
        findPlainMentionsGo fuel (rest.dropWhile wordChar)
    else findPlainMentionsGo fuel rest

def findPlainMentions (s : List Char) : List String :=
  findPlainMentionsGo s.length s

/-- Executable semantics of the compiled `MENTION_LINE_PATTERN`
(`^[•\x5c\x5c-]\x5c\x5cs*(?P<author>[^:]+):\x5c\x5cs*(?P<body>.*)$`
after raw-string processing): first a character from the class
containing the bullet, a literal backslash and the dash; then a literal
backslash and a greedy run of letters `s` (backtrackable); then the
author group up to the first colon; after the colon again a literal
backslash and a run of `s`; the body may not contain a newline (`.`
does not cross newlines and the input is stripped, so `$` is
end-of-string).  Returns the captured (author, body). -/
def mentionLineMatch (stripped : List Char) : Option (List Char × List Char) :=
  match stripped with
  | c0 :: c1 :: rest =>
    if (c0 == '•' || c0 == '\\' || c0 == '-') && c1 == '\\' then
      let k := (rest.takeWhile (fun c => c == 's')).length
      match rest.findIdx? (fun c => c == ':') with
      | none => none
      | some ci =>
        if 1 ≤ ci then
          let a := min k (ci - 1)
          match rest.drop (ci + 1) with
          | c2 :: rest2 =>
            if c2 == '\\' then
              let k2 := (rest2.takeWhile (fun c => c == 's')).length
              let body := rest2.drop k2
              if body.any (fun c => c == '\n') then none
              else some ((rest.drop a).take (ci - a), body)
            else none
          | [] => none
        else none
    else none
  | _ => none

/-- `ReliableMonitor._extract_sender_handle`: the first `@`-token of the
author text, else a handle slugged from the author text (strip bullets
and dashes, cut at the first bracket, take the first whitespace-separated
token, strip `@,:` from the ends, keep only class characters), else
`@unknown`. -/
def extractSenderHandle (author_text : String) : String :=
  match firstMention author_text.data with
  | some m => m
  | none =>
    let base := author_text.data.filter (fun c => !(c == '•'))
    let base := base.filter (fun c => !(c == '-'))
    let base := stripWs base
    let base := base.takeWhile (fun c => !(c == '['))
    let base := base.takeWhile (fun c => !(c == '('))
    let base := stripWs base
    if !base.isEmpty then
      let base := base.dropWhile (fun c => c == '@')
      let base := (base.dropWhile pyWhitespace).takeWhile
        (fun c => !pyWhitespace c)
      let base := stripSet (fun c => c == '@' || c == ',' || c == ':') base
      let base := base.filter mentionChar
      if !base.isEmpty && !headEq "✅".data (lowerList base) &&
          !hasSub "waitsuccess".data (lowerList base) then
        "@" ++ String.mk base
      else "@unknown"
    else "@unknown"

/-- Strategy 1 of `_parse_message`, applied to a single line. -/
def strategy1Line (handleLower : String) (line : List Char) :
    Option (Option String × Option String × Option String) :=
  let stripped := stripWs line
  if stripped.isEmpty || headEq "✅".data stripped ||
      headEq "📨".data stripped then
    none
  else
    match mentionLineMatch stripped with
    | none => none
    | some (authorChars, bodyChars) =>
      let author := String.mk (stripWs authorChars)
      let body := String.mk bodyChars
      let mentions := findMentions (author ++ ": " ++ body).data
      if mentions.any (fun m => lowerStr m == handleLower) then
        some (some author, some ("• " ++ author ++ ": " ++ body),
          some (extractSenderHandle author))
      else none

/-- Strategy 2 (fallback) of `_parse_message`, applied to a single
line: any line containing the lowered agent handle; the author is the
text before the first colon, stripped of bullets, blanks and dashes,
else the literal `unknown`. -/
def strategy2Line (handleLower : String) (line : List Char) :
    Option (Option String × Option String × Option String) :=
  if hasSub handleLower.data (lowerList line) then
    let mentions := findMentions line
    if mentions.any (fun m => lowerStr m == handleLower) then
      let author :=
        if line.any (fun c => c == ':') then
          String.mk (stripSet (fun c => c == '•' || c == ' ' || c == '-')
            (line.takeWhile (fun c => !(c == ':'))))
        else "unknown"
      some (some author, some (String.mk line),
        some (extractSenderHandle author))
    else none
  else none

/-- `ReliableMonitor._parse_message`: split the blob on the literal
two-character sequence backslash-`n` (after first replacing doubled
backslash-`n` by single), then strategy 1 over all lines, then strategy
2; `(none, none, none)` when nothing matches. -/
def parseMessage (handleLower : String) (raw : String) :
    Option String × Option String × Option String :=
  let lines := splitOnList "\\n".data (replaceAll "\\\\n".data "\\n".data
    raw.data)
  match lines.findSome? (strategy1Line handleLower) with
  | some r => r
  | none =>
    match lines.findSome? (strategy2Line handleLower) with
    | some r => r
    | none => (none, none, none)

/-- `ReliableMonitor._is_mention_for_us`. -/
def isMentionForUs (handleLower : String) (mention : String) : Bool :=
  hasSub handleLower.data (lowerStr mention).data

/-- `ReliableMonitor._resolve_sender_handle`. -/
def resolveSenderHandle (handleLower : String) (m : StoredMessage) : String :=
  let sender := match m.sender_handle with
    | none => "@unknown"
    | some s => if s == "" then "@unknown" else s
  if sender ≠ "@unknown" then sender
  else
    let text := match m.parsed_mention with
      | none => ""
      | some s => s
    match (findPlainMentions text.data).find?
        (fun mn => lowerStr mn != handleLower) with
    | some mn => mn
    | none =>
      match m.parsed_author with
      | some a0 =>
        if a0 ≠ "" then
          let author := stripWs a0.data
          if !author.isEmpty && !headEq "✅".data (lowerList author) then
            String.mk author
          else sender
        else sender
      | none => sender

/-! ### SHA-256

`_generate_message_id` hashes with `hashlib.sha256`; the executable
implementation below follows FIPS 180-4, on 32-bit words carried as
naturals reduced modulo `2 ^ 32`. -/

namespace SHA256

def M32 : ℕ := 4294967296

def rotr (n x : ℕ) : ℕ := ((x >>> n) ||| (x <<< (32 - n))) % M32

def s0 (x : ℕ) : ℕ := (rotr 7 x) ^^^ (rotr 18 x) ^^^ (x >>> 3)

def s1 (x : ℕ) : ℕ := (rotr 17 x) ^^^ (rotr 19 x) ^^^ (x >>> 10)

def S0 (x : ℕ) : ℕ := (rotr 2 x) ^^^ (rotr 13 x) ^^^ (rotr 22 x)

def S1 (x : ℕ) : ℕ := (rotr 6 x) ^^^ (rotr 11 x) ^^^ (rotr 25 x)

def ch (x y z : ℕ) : ℕ := (x &&& y) ^^^ ((x ^^^ (M32 - 1)) &&& z)

def maj (x y z : ℕ) : ℕ := (x &&& y) ^^^ (x &&& z) ^^^ (y &&& z)

def K : List ℕ :=
  [1116352408, 1899447441, 3049323471, 3921009573, 961987163,
   1508970993, 2453635748, 2870763221, 3624381080, 310598401, 607225278,
   1426881987, 1925078388, 2162078206, 2614888103, 3248222580,
   3835390401, 4022224774, 264347078, 604807628, 770255983, 1249150122,
   1555081692, 1996064986, 2554220882, 2821834349, 2952996808,
   3210313671, 3336571891, 3584528711, 113926993, 338241895, 666307205,
   773529912, 1294757372, 1396182291, 1695183700, 1986661051,
   2177026350, 2456956037, 2730485921, 2820302411, 3259730800,
   3345764771, 3516065817, 3600352804, 4094571909, 275423344, 430227734,
   506948616, 659060556, 883997877, 958139571, 1322822218, 1537002063,
   1747873779, 1955562222, 2024104815, 2227730452, 2361852424,
   2428436474, 2756734187, 3204031479, 3329325298]

def H0 : List ℕ :=
  [1779033703, 3144134277, 1013904242, 2773480762, 1359893119,
   2600822924, 528734635, 1541459225]

def be64 (n : ℕ) : List ℕ :=
  [n >>> 56 % 256, n >>> 48 % 256, n >>> 40 % 256, n >>> 32 % 256,
   n >>> 24 % 256, n >>> 16 % 256, n >>> 8 % 256, n % 256]

/-- FIPS 180-4 padding: append `0x80`, zeros to 56 mod 64, then the
bit length as a big-endian 64-bit integer. -/
def padBytes (msg : List ℕ) : List ℕ :=
  let L := msg.length
  let zeros := (119 - (L % 64)) % 64
  msg ++ [128] ++ List.replicate zeros 0 ++ be64 (8 * L)

def toWords : List ℕ → List ℕ
  | b0 :: b1 :: b2 :: b3 :: rest =>
    (((b0 * 256 + b1) * 256 + b2) * 256 + b3) :: toWords rest
  | _ => []

def wAt (w : List ℕ) (i : ℕ) : ℕ := w.getD i 0

/-- Extend the 16-word block to the 64-word message schedule. -/
def extendW : List ℕ → ℕ → List ℕ
  | w, 0 => w
  | w, fuel+1 =>
    let i := w.length
    let nw := (s1 (wAt w (i - 2)) + wAt w (i - 7) + s0 (wAt w (i - 15)) +
      wAt w (i - 16)) % M32
    extendW (w ++ [nw]) fuel

/-- One compression round on the 8-word working state. -/
def round (st : List ℕ) (kw : ℕ × ℕ) : List ℕ :=
  match st with
  | [a, b, c, d, e, f, g, h] =>
    let t1 := (h + S1 e + ch e f g + kw.1 + kw.2) % M32
    let t2 := (S0 a + maj a b c) % M32
    [(t1 + t2) % M32, a, b, c, (d + t1) % M32, e, f, g]
  | _ => st

/-- Compress one 64-byte block into the hash state. -/
def compress (h : List ℕ) (block : List ℕ) : List ℕ :=
  let w := extendW (toWords block) 48
  let st := (K.zip w).foldl round h
  List.zipWith (fun x y => (x + y) % M32) h st

def chunks64Go : ℕ → List ℕ → List (List ℕ)
  | 0, _ => []
  | _, [] => []
  | fuel+1, b :: l => (b :: l).take 64 :: chunks64Go fuel ((b :: l).drop 64)

/-- Split the padded message into 64-byte blocks (each step consumes at
least one byte, so the length is enough fuel). -/
def chunks64 (l : List ℕ) : List (List ℕ) := chunks64Go l.length l

/-- The eight-word digest of a byte string. -/
def digestWords (msg : List ℕ) : List ℕ :=
  (chunks64 (padBytes msg)).foldl compress H0

def hexDigit (n : ℕ) : Char :=
  if n < 10 then Char.ofNat (48 + n) else Char.ofNat (87 + n)

def wordHex (n : ℕ) : List Char :=
  [hexDigit (n >>> 28 % 16), hexDigit (n >>> 24 % 16), hexDigit (n >>> 20 % 16),
   hexDigit (n >>> 16 % 16), hexDigit (n >>> 12 % 16), hexDigit (n >>> 8 % 16),
   hexDigit (n >>> 4 % 16), hexDigit (n % 16)]

end SHA256

/-- UTF-8 encoding of one character (what `str.encode()` does). -/
def utf8Char (c : Char) : List ℕ :=
  let n := c.toNat
  if n < 128 then [n]
  else if n < 2048 then [192 + n / 64, 128 + n % 64]
  else if n < 65536 then [224 + n / 4096, 128 + (n / 64) % 64, 128 + n % 64]
  else [240 + n / 262144, 128 + (n / 4096) % 64, 128 + (n / 64) % 64,
    128 + n % 64]

def utf8Bytes (s : String) : List ℕ := (s.data.map utf8Char).flatten

/-- `hashlib.sha256(...).hexdigest()`. -/
def sha256hex (s : String) : String :=
  String.mk (((SHA256.digestWords (utf8Bytes s)).map SHA256.wordHex).flatten)

/-- `ReliableMonitor._generate_message_id`: the hash input is
`f-string(content):(time.time())`; the clock reading is passed in as the
string Python interpolates for it. -/
def generateMessageId (content timeRepr : String) : String :=
  sha256hex (content ++ ":" ++ timeRepr)

/-! ### The processing pipeline -/

/-- Observable side effects of processing (used to state that the
plugin was or was not invoked and that sends were or were not
attempted). -/
inductive Event where
  | pluginCalled (id sender enhanced : String)
  | sendAttempted (text : String)
deriving DecidableEq, Repr

/-- Outcome of one `client.send_message` attempt. -/
inductive SendOutcome where
  | ok
  | returnedFalse
  | threw
deriving DecidableEq, Repr

/-- External outcomes consumed while processing one message: the
plugin response (or the message of the exception it raises) and the
outcomes of the send attempts. -/
structure MsgEnv where
  plugin : Except String String
  send : ℕ → SendOutcome

/-- `self.max_retries` -/
def maxRetries : ℕ := 5

/-- `self.message_timeout` (seconds) -/
def messageTimeoutN : ℕ := 300

def messageTimeout : ℚ := (messageTimeoutN : ℚ)

/-- The dead-letter reason recorded on retry exhaustion
(`f-string Exceeded max retries (max_retries)`). -/
def retryExhaustedMsg : String := "Exceeded max retries (5)"

/-- The dead-letter reason recorded on timeout
(`f-string Message timeout (message_timeout s)`). -/
def timeoutMsg : String := "Message timeout (300s)"

/-- `ReliableMonitor._send_response_reliably` (default
`max_attempts=3`): exceptions from `send_message` are caught inside the
loop, a `False` return falls through; `True` returns immediately. -/
def sendAttemptsFrom (send : ℕ → SendOutcome) (text : String) :
    ℕ → ℕ → Bool × List Event
  | _, 0 => (false, [])
  | i, n+1 =>
    match send i with
    | .ok => (true, [.sendAttempted text])
    | _ =>
      let r := sendAttemptsFrom send text (i+1) n
      (r.1, .sendAttempted text :: r.2)

def sendResponseReliably (env : MsgEnv) (text : String) : Bool × List Event :=
  sendAttemptsFrom env.send text 0 3

/-- The content handed to the plugin: the parsed mention with the
self-handle pattern substituted away and stripped
(`_process_with_plugin`). -/
def cleanContent (hl : List Char) (m : StoredMessage) : String :=
  let content := match m.parsed_mention with
    | none => ""
    | some s => s
  String.mk (stripWs (subScan hl [] none content.data))

/-- The enhanced prompt built by `_process_with_plugin`; the source
writes the newlines as doubled backslashes, so they are the literal
two-character sequence backslash-`n`. -/
def enhancedMessage (sender content : String) : String :=
  "aX Platform Message Received\\n" ++
  "- Mention originated from: " ++ sender ++ "\\n" ++
  "- The sender tagged you in a shared conversation.\\n\\n" ++
  "MESSAGE CONTENT:\\n" ++ content

/-- `message.parsed_mention` is falsy (None or empty), triggering a
re-parse in `_process_single_message`. -/
def parsedMentionFalsy (m : StoredMessage) : Bool :=
  match m.parsed_mention with
  | none => true
  | some s => s == ""

/-- Result of processing: the store, the self-mention violation count
and the emitted events. -/
structure ProcResult where
  store : Store
  vc : ℕ
  events : List Event
deriving Repr

/-- Steps 1-2 of `_process_single_message`: mark the row PROCESSING,
re-parse when the stored snapshot has no parsed mention, and re-store
the refreshed snapshot (an `INSERT OR REPLACE` that writes the
snapshot's own status back).  Returns the refreshed snapshot and the
store. -/
def processParsePhase (handleLower : String) (s : Store)
    (m : StoredMessage) (now : ℚ) : StoredMessage × Store :=
  let s1 := updateMessageStatus s m.id .processing none now
  if parsedMentionFalsy m then
    let p := parseMessage handleLower m.raw_content
    let m' := { m with
      parsed_author := p.1, parsed_mention := p.2.1,
      sender_handle := p.2.2 }
    (m', storeMessage s1 m')
  else (m, s1)

/-- The dispatch tail of `_process_single_message`: call the plugin,
sanitize, send with local retries, and record the outcome.  A plugin
exception is the only raise the surrounding try/except can see, so it
is modelled by the match on `env.plugin`. -/
def processDispatch (handleLower : String) (env : MsgEnv) (s2 : Store)
    (vc : ℕ) (m2 : StoredMessage) (now : ℚ) : ProcResult :=
  let sender := resolveSenderHandle handleLower m2
  let enhanced := enhancedMessage sender (cleanContent handleLower.data m2)
  match env.plugin with
  | .error e =>
    let s3 := (incrementRetry s2 m2.id).1
    { store := updateMessageStatus s3 m2.id .failed (some e) now
      vc := vc, events := [.pluginCalled m2.id sender enhanced] }
  | .ok resp0 =>
    let er := enforceConversationProtocol handleLower.data vc resp0
    let sendRes := sendResponseReliably env er.2
    if sendRes.1 then
      { store := updateMessageStatus s2 m2.id .completed none now
        vc := er.1
        events := .pluginCalled m2.id sender enhanced :: sendRes.2 }
    else
      let s3 := (incrementRetry s2 m2.id).1
      { store := updateMessageStatus s3 m2.id .failed
          (some "Failed to send response") now
        vc := er.1
        events := .pluginCalled m2.id sender enhanced :: sendRes.2 }

/-- `ReliableMonitor._process_single_message`. -/
def processSingleMessage (handleLower : String) (env : MsgEnv) (s : Store)
    (vc : ℕ) (m : StoredMessage) (now : ℚ) : ProcResult :=
  let ps := processParsePhase handleLower s m now
  if !isMentionForUs handleLower ((ps.1.parsed_mention).getD "") then
    { store := updateMessageStatus ps.2 ps.1.id .completed
        (some "Not a mention for this agent") now
      vc := vc, events := [] }
  else
    processDispatch handleLower env ps.2 vc ps.1 now

/-- One step of `_process_pending_messages` on one snapshot row:
dead-letter on retry exhaustion, then on age, else process. -/
def processPendingStep (handleLower : String) (envOf : String → MsgEnv)
    (now : ℚ) (acc : ProcResult) (m : StoredMessage) : ProcResult :=
  if maxRetries ≤ m.retry_count then
    let s' := updateMessageStatus acc.store m.id .dead_letter (some retryExhaustedMsg) now
    { acc with store := s' }
  else if messageTimeout < now - m.created_at then
    let s' := updateMessageStatus acc.store m.id .dead_letter (some timeoutMsg) now
    { acc with store := s' }
  else
    let r := processSingleMessage handleLower (envOf m.id) acc.store acc.vc
      m now
    { store := r.store, vc := r.vc, events := acc.events ++ r.events }

/-- `ReliableMonitor._process_pending_messages`: snapshot the
PENDING/FAILED rows, then handle each in order.  `envOf` supplies the
plugin/send outcomes for the row with the given id. -/
def processPendingMessages (handleLower : String) (envOf : String → MsgEnv)
    (s : Store) (vc : ℕ) (now : ℚ) : ProcResult :=
  (getPendingMessages s).foldl (processPendingStep handleLower envOf now)
    { store := s, vc := vc, events := [] }

/-- The bare `UPDATE messages SET status = 'pending' WHERE id = ?`
issued by the retry sweep (it touches no other column). -/
def setStatusPendingOnly (s : Store) (id : String) : Store :=
  s.map (fun r => if r.id == id then { r with status := .pending } else r)

/-- One sweep of `ReliableMonitor._retry_failed_messages` (the body that
runs every 30 seconds): snapshot the FAILED rows with
`retry_count < max_retries`; for each, compute the backoff delay from
its snapshot retry count (`jit` is that row's jitter draw), re-read
`processed_at` from the table, skip the row only when `processed_at` is
set and younger than the delay, and otherwise flip the status back to
PENDING. -/
def retryStep (now : ℚ) (jit : String → ℚ) (acc : Store)
    (m : StoredMessage) : Store :=
  match (lookupId acc m.id).bind (fun r => r.processed_at) with
  | some t =>
    if now - t < getDelay monitorBackoff m.retry_count (jit m.id) then acc
    else setStatusPendingOnly acc m.id
  | none => setStatusPendingOnly acc m.id

def retrySweep (s : Store) (now : ℚ) (jit : String → ℚ) : Store :=
  (s.filter (fun m =>
    m.status == .failed && decide (m.retry_count < maxRetries))).foldl
    (retryStep now jit) s

/-- One sweep of `ReliableMonitor._cleanup_old_messages` (the hourly
body): delete COMPLETED rows whose `processed_at` is older than 24
hours; a NULL `processed_at` never compares below the cutoff. -/
def cleanupSweep (s : Store) (now : ℚ) : Store :=
  s.filter (fun m => !(m.status == .completed &&
    (match m.processed_at with
     | some t => decide (t < now - 86400)
     | none => false)))

/-! ### Ingestion and the control loop -/

/-- The in-memory fields of `ReliableMonitor` that the steady-state
loop reads and writes (besides the store). -/
structure MonitorState where
  store : Store
  vc : ℕ
  last_wait_success : ℚ
  consecutive_idle_polls : ℕ
  last_idle_report : ℚ
deriving DecidableEq, Repr

/-- The fresh PENDING row built by `_check_new_messages` for a new
payload. -/
def newPendingMessage (id raw : String) (now : ℚ) : StoredMessage :=
  { id := id, raw_content := raw, parsed_author := none,
    parsed_mention := none, sender_handle := none, status := .pending,
    created_at := now, processed_at := none, retry_count := 0,
    error_message := none }

/-- The dedup-and-store core of `_check_new_messages`: hash the payload
with the clock reading, drop it if the id already exists, else insert a
PENDING row.  Returns the store and whether the row was (newly)
stored. -/
def ingestRaw (s : Store) (raw timeRepr : String) (now : ℚ) :
    Store × Bool :=
  let id := generateMessageId raw timeRepr
  if isDuplicateMessage s id then (s, false)
  else (storeMessage s (newPendingMessage id raw now), true)

/-- `ReliableMonitor._check_new_messages`.  `poll` is the outcome of
`client.check_messages` (an exception is caught and only logged); an
empty or absent payload counts as an idle poll; a duplicate id returns
early, leaving the idle bookkeeping untouched. -/
def checkNewMessages (st : MonitorState)
    (poll : Except String (Option String)) (timeRepr : String) (now : ℚ) :
    MonitorState :=
  match poll with
  | .error _ => st
  | .ok none =>
    { st with consecutive_idle_polls := st.consecutive_idle_polls + 1 }
  | .ok (some raw) =>
    if raw = "" then
      { st with consecutive_idle_polls := st.consecutive_idle_polls + 1 }
    else
      let r := ingestRaw st.store raw timeRepr now
      if r.2 then
        { st with store := r.1, last_wait_success := now, consecutive_idle_polls := 0 }
      else st

/-- `ReliableMonitor._reliable_connect` with `max_retries = 10`:
`connect i` is the outcome of the i-th `client.connect()`; the failure
of the final attempt re-raises. -/
def reliableConnectFrom (connect : ℕ → Bool) : ℕ → ℕ → Except String Unit
  | _, 0 => .error "connection failed"
  | attempt, fuel+1 =>
    if connect attempt then .ok ()
    else if fuel = 0 then .error "connection failed"
    else reliableConnectFrom connect (attempt+1) fuel

def reliableConnect (connect : ℕ → Bool) : Except String Unit :=
  reliableConnectFrom connect 0 10

/-- The idle threshold of `_maybe_recover_from_idle`:
`max(120, message_timeout // 2)`. -/
def idleThreshold : ℚ := max 120 ((messageTimeoutN / 2 : ℕ) : ℚ)

/-- `ReliableMonitor._maybe_recover_from_idle`: below 90 seconds of
idleness do nothing; optionally refresh the idle report stamp; at the
threshold recycle the connection (`_reliable_reconnect` re-raises a
connect failure) and reset the idle bookkeeping (`now2` is the clock
after the reconnect completes). -/
def maybeRecoverFromIdle (st : MonitorState) (connect : ℕ → Bool)
    (now now2 : ℚ) : Except String MonitorState :=
  let idle := now - st.last_wait_success
  if idle < 90 then .ok st
  else
    let st := if 30 < now - st.last_idle_report then
        { st with last_idle_report := now }
      else st
    if idleThreshold ≤ idle then
      match reliableConnect connect with
      | .error e => .error e
      | .ok _ =>
        .ok { st with last_wait_success := now2, consecutive_idle_polls := 0 }
    else .ok st

/-- Per-iteration inputs of the steady-state loop: clock readings and
the outcomes of the external calls the iteration may make. -/
structure CycleEnv where
  now : ℚ
  healthy : Bool
  connect1 : ℕ → Bool
  envOf : String → MsgEnv
  poll : Except String (Option String)
  pollTimeRepr : String
  pollNow : ℚ
  idleNow : ℚ
  idleNow2 : ℚ
  connect2 : ℕ → Bool

/-- One iteration of the `while True` body of `ReliableMonitor.run`:
reconnect if the health checker reports unhealthy (`_reliable_reconnect`
re-raises when `_reliable_connect` exhausts its attempts), drain the
pending backlog, poll for new messages (errors are caught inside), and
run the idle-recovery check.  An `error` result models an exception
escaping the loop body (the `run` handler prints and re-raises it). -/
def runCycle (st : MonitorState) (handleLower : String) (env : CycleEnv) :
    Except String MonitorState :=
  let connected : Except String Unit :=
    if !env.healthy then reliableConnect env.connect1 else .ok ()
  match connected with
  | .error e => .error e
  | .ok _ =>
    let pass := processPendingMessages handleLower env.envOf st.store st.vc
      env.now
    let st := { st with store := pass.store, vc := pass.vc }
    let st := checkNewMessages st env.poll env.pollTimeRepr env.pollNow
    maybeRecoverFromIdle st env.connect2 env.idleNow env.idleNow2

/-- The store-touching operations of the monitor, for stating
store-level invariants uniformly. -/
inductive MonitorOp where
  | processPending (handleLower : String) (envOf : String → MsgEnv)
      (vc : ℕ) (now : ℚ)
  | retryFailed (now : ℚ) (jit : String → ℚ)
  | cleanup (now : ℚ)
  | ingest (raw timeRepr : String) (now : ℚ)

def applyOp (op : MonitorOp) (s : Store) : Store :=
  match op with
  | .processPending hl envOf vc now =>
    (processPendingMessages hl envOf s vc now).store
  | .retryFailed now jit => retrySweep s now jit
  | .cleanup now => cleanupSweep s now
  | .ingest raw timeRepr now => (ingestRaw s raw timeRepr now).1

/-- A run of health checks that all observe an in-flight request; `pr`
gives the (never consulted) would-be probe outcomes. -/
def inflightChecks (pr : ℚ → Bool) (hc : HealthChecker) :
    List ℚ → HealthChecker
  | [] => hc
  | t :: ts => inflightChecks pr (healthCheck hc true (pr t) t).1 ts

/-- The event is a plugin invocation for the row with the given id. -/
def isPluginCallFor (target : String) (ev : Event) : Prop :=
  ∃ sender enhanced, ev = Event.pluginCalled target sender enhanced

/-- Every case-insensitive occurrence of `hl` in the scanned suffix is
word-bounded (a full match of the lookaround pattern); `prev` is the
character just before the suffix in the whole string. -/
def allOccB (hl : List Char) : Option Char → List Char → Bool
  | _, [] => true
  | prev, c :: rest =>
    (!(ciHeadMatch hl (c :: rest)) || matchHere hl prev (c :: rest)) &&
    allOccB hl (some c) rest

/-- `hl` occurs (case-insensitively) somewhere in the string. -/
def hasOcc (hl : List Char) : List Char → Bool
  | [] => ciHeadMatch hl []
  | c :: rest => ciHeadMatch hl (c :: rest) || hasOcc hl rest

/-- The previous-character context after dropping `k` characters. -/
def prevAt (prev : Option Char) (s : List Char) : ℕ → Option Char
  | 0 => prev
  | k+1 =>
    match s[k]? with
    | some c => some c
    | none => prev

/-- A FAILED row moments after its failure was recorded
(`processed_at` is NULL, as `update_message_status` always writes for
FAILED). -/
def sampleFailedRow : StoredMessage :=
  { id := "f1", raw_content := "• @bob: hi @agent", parsed_author := some "@bob",
    parsed_mention := some "• @bob: hi @agent", sender_handle := some "@bob",
    status := .failed, created_at := 0, processed_at := none,
    retry_count := 1, error_message := some "Failed to send response" }

/-- A PENDING row whose retry count has reached the cap. -/
def sampleExhaustedRow : StoredMessage :=
  { id := "p1", raw_content := "• @bob: hi @agent", parsed_author := some "@bob",
    parsed_mention := some "• @bob: hi @agent", sender_handle := some "@bob",
    status := .pending, created_at := 0, processed_at := none,
    retry_count := 5, error_message := some "Failed to send response" }

/-- A parsed PENDING row that mentions the agent but whose sender
resolves to the `@unknown` placeholder (the parsed fields are exactly
what `_parse_message` returns for this raw content under the handle
`@agent`). -/
def sampleUnknownSenderRow : StoredMessage :=
  { id := "u1", raw_content := "✅ WAIT SUCCESS: hi @agent",
    parsed_author := some "✅ WAIT SUCCESS",
    parsed_mention := some "✅ WAIT SUCCESS: hi @agent",
    sender_handle := some "@unknown",
    status := .pending, created_at := 0, processed_at := none,
    retry_count := 0, error_message := none }

/-- A DEAD_LETTER row. -/
def sampleDeadRow : StoredMessage :=
  { id := "d1", raw_content := "• @bob: hi @agent", parsed_author := some "@bob",
    parsed_mention := some "• @bob: hi @agent", sender_handle := some "@bob",
    status := .dead_letter, created_at := 0, processed_at := some 10,
    retry_count := 5, error_message := some "Exceeded max retries (5)" }

/-! ### Theorems -/

theorem lookupId_cons (r : StoredMessage) (s : Store) (id : String) :
    lookupId (r :: s) id =
      if r.id == id then some r else lookupId s id := by
  cases h : (r.id == id) with
  | true => simp [lookupId, List.find?_cons_of_pos, h]
  | false => simp [lookupId, List.find?_cons_of_neg, h]

/-- A keyed row update (the shape shared by `update_message_status`,
`increment_retry_count`, the sweep's raw status update, and the REPLACE
arm of `store_message`) leaves the rows of every other id alone. -/
theorem lookupId_map_if_ne (s : Store) (id id' : String)
    (g : StoredMessage → StoredMessage)
    (hg : ∀ r : StoredMessage, r.id = id' → (g r).id = id') (h : id ≠ id') :
    lookupId (s.map (fun r => if r.id == id' then g r else r)) id =
      lookupId s id := by
  induction s with
  | nil => rfl
  | cons r s ih =>
    simp only [List.map_cons, lookupId_cons]
    by_cases hr : r.id = id'
    · have hb : (r.id == id') = true := beq_iff_eq.mpr hr
      have hgr : ((g r).id == id) = false :=
        beq_eq_false_iff_ne.mpr (by rw [hg r hr]; exact (Ne.symm h))
      have hrr : (r.id == id) = false :=
        beq_eq_false_iff_ne.mpr (by rw [hr]; exact (Ne.symm h))
      simp only [hb, if_true, hgr, hrr, if_false, Bool.false_eq_true]
      exact ih
    · have hb : (r.id == id') = false := beq_eq_false_iff_ne.mpr hr
      simp only [hb, if_false, Bool.false_eq_true]
      split
      · rfl
      · exact ih

/-- A keyed row update on id `id` rewrites exactly that row through
`g`. -/
theorem lookupId_map_if_self (s : Store) (id : String)
    (g : StoredMessage → StoredMessage)
    (hg : ∀ r : StoredMessage, r.id = id → (g r).id = id) :
    lookupId (s.map (fun r => if r.id == id then g r else r)) id =
      (lookupId s id).map g := by
  induction s with
  | nil => rfl
  | cons r s ih =>
    simp only [List.map_cons, lookupId_cons]
    by_cases hr : r.id = id
    · have hb : (r.id == id) = true := beq_iff_eq.mpr hr
      have hgr : ((g r).id == id) = true := beq_iff_eq.mpr (hg r hr)
      simp only [hb, if_true, hgr]
      rfl
    · have hb : (r.id == id) = false := beq_eq_false_iff_ne.mpr hr
      simp only [hb, if_false, Bool.false_eq_true]
      exact ih

/-- In a store with pairwise distinct ids, looking up a member's id
finds exactly that member. -/
theorem lookupId_of_mem (s : Store) (m : StoredMessage)
    (hn : (s.map StoredMessage.id).Nodup) (hm : m ∈ s) :
    lookupId s m.id = some m := by
  induction s with
  | nil => cases hm
  | cons r s ih =>
    simp only [List.map_cons, List.nodup_cons] at hn
    rcases List.mem_cons.mp hm with hm | hm
    · subst hm
      simp [lookupId_cons]
    · have hne : (r.id == m.id) = false := by
        refine beq_eq_false_iff_ne.mpr ?_
        intro hbad
        exact hn.1 (hbad ▸ List.mem_map_of_mem StoredMessage.id hm)
      simp only [lookupId_cons, hne, if_false, Bool.false_eq_true]
      exact ih hn.2 hm

theorem lookupId_update_ne (s : Store) (id id' : String)
    (st : MessageStatus) (e : Option String) (now : ℚ) (h : id ≠ id') :
    lookupId (updateMessageStatus s id' st e now) id = lookupId s id := by
  unfold updateMessageStatus
  exact lookupId_map_if_ne s id id' _ (fun r hr => hr) h

theorem lookupId_update_self (s : Store) (id : String)
    (st : MessageStatus) (e : Option String) (now : ℚ) :
    lookupId (updateMessageStatus s id st e now) id =
      (lookupId s id).map (fun r =>
        { r with status := st
                 processed_at := if statusTerminal st then some now else none
                 error_message := e }) := by
  unfold updateMessageStatus
  exact lookupId_map_if_self s id _ (fun r hr => hr)

theorem lookupId_increment_ne (s : Store) (id id' : String) (h : id ≠ id') :
    lookupId (incrementRetry s id').1 id = lookupId s id := by
  unfold incrementRetry
  exact lookupId_map_if_ne s id id' _ (fun r hr => hr) h

theorem lookupId_setPending_ne (s : Store) (id id' : String) (h : id ≠ id') :
    lookupId (setStatusPendingOnly s id') id = lookupId s id := by
  unfold setStatusPendingOnly
  exact lookupId_map_if_ne s id id' _ (fun r hr => hr) h

theorem lookupId_setPending_self (s : Store) (id : String) :
    lookupId (setStatusPendingOnly s id) id =
      (lookupId s id).map (fun r => { r with status := .pending }) := by
  unfold setStatusPendingOnly
  exact lookupId_map_if_self s id _ (fun r hr => hr)

theorem lookupId_append_other (s : Store) (m : StoredMessage) (id : String)
    (h : id ≠ m.id) : lookupId (s ++ [m]) id = lookupId s id := by
  induction s with
  | nil =>
    have hm : (m.id == id) = false := beq_eq_false_iff_ne.mpr (Ne.symm h)
    simp [lookupId_cons, hm, lookupId]
  | cons r s ih =>
    simp only [List.cons_append, lookupId_cons]
    split
    · rfl
    · exact ih

theorem lookupId_store_ne (s : Store) (m : StoredMessage) (id : String)
    (h : id ≠ m.id) :
    lookupId (storeMessage s m) id = lookupId s id := by
  unfold storeMessage
  split
  · exact lookupId_map_if_ne s id m.id _ (fun r _ => rfl) h
  · exact lookupId_append_other s m id h

/-- Filtering with a predicate that keeps `m` keeps `m` findable. -/
theorem lookupId_filter_of_mem (s : Store) (m : StoredMessage)
    (p : StoredMessage → Bool) (hn : (s.map StoredMessage.id).Nodup)
    (hm : m ∈ s) (hp : p m = true) :
    lookupId (s.filter p) m.id = some m := by
  induction s with
  | nil => cases hm
  | cons r s ih =>
    simp only [List.map_cons, List.nodup_cons] at hn
    rcases List.mem_cons.mp hm with hm | hm
    · subst hm
      simp [List.filter_cons, hp, lookupId_cons]
    · have hne : (r.id == m.id) = false := by
        refine beq_eq_false_iff_ne.mpr ?_
        intro hbad
        exact hn.1 (hbad ▸ List.mem_map_of_mem StoredMessage.id hm)
      rw [List.filter_cons]
      split
      · rw [lookupId_cons, hne]
        simp only [Bool.false_eq_true, if_false]
        exact ih hn.2 hm
      · exact ih hn.2 hm

/-- Two rows of an id-unique store with the same id are the same row. -/
theorem eq_of_mem_same_id (s : Store) (m x : StoredMessage)
    (hn : (s.map StoredMessage.id).Nodup) (hm : m ∈ s) (hx : x ∈ s)
    (hid : x.id = m.id) : x = m := by
  have h1 := lookupId_of_mem s m hn hm
  have h2 := lookupId_of_mem s x hn hx
  rw [hid, h1] at h2
  exact (Option.some_injective _ h2).symm

theorem retryStep_lookup_ne (now : ℚ) (jit : String → ℚ) (acc : Store)
    (x : StoredMessage) (target : String) (hx : x.id ≠ target) :
    lookupId (retryStep now jit acc x) target = lookupId acc target := by
  unfold retryStep
  cases hbind : (lookupId acc x.id).bind (fun r => r.processed_at) with
  | none =>
    simp only [hbind]
    exact lookupId_setPending_ne acc target x.id (Ne.symm hx)
  | some t =>
    simp only [hbind]
    split
    · rfl
    · exact lookupId_setPending_ne acc target x.id (Ne.symm hx)

theorem retryFold_lookup_ne (now : ℚ) (jit : String → ℚ)
    (l : List StoredMessage) (acc : Store) (target : String)
    (hl : ∀ x ∈ l, x.id ≠ target) :
    lookupId (l.foldl (retryStep now jit) acc) target =
      lookupId acc target := by
  induction l generalizing acc with
  | nil => rfl
  | cons x l ih =>
    rw [List.foldl_cons,
      ih _ (fun y hy => hl y (List.mem_cons_of_mem x hy)),
      retryStep_lookup_ne now jit acc x target (hl x (List.mem_cons_self x l))]

theorem processParsePhase_fst_id (hl : String) (s : Store)
    (m : StoredMessage) (now : ℚ) :
    (processParsePhase hl s m now).1.id = m.id := by
  unfold processParsePhase
  split <;> rfl

theorem processParsePhase_lookup_ne (hl : String) (s : Store)
    (m : StoredMessage) (now : ℚ) (target : String) (h : m.id ≠ target) :
    lookupId (processParsePhase hl s m now).2 target = lookupId s target := by
  unfold processParsePhase
  split
  · rw [lookupId_store_ne]
    · exact lookupId_update_ne _ _ _ _ _ _ (Ne.symm h)
    · exact Ne.symm h
  · exact lookupId_update_ne _ _ _ _ _ _ (Ne.symm h)

theorem processDispatch_lookup_ne (hl : String) (env : MsgEnv) (s2 : Store)
    (vc : ℕ) (m2 : StoredMessage) (now : ℚ) (target : String)
    (h : m2.id ≠ target) :
    lookupId (processDispatch hl env s2 vc m2 now).store target =
      lookupId s2 target := by
  unfold processDispatch
  cases env.plugin with
  | error e =>
    show lookupId (updateMessageStatus (incrementRetry s2 m2.id).1 m2.id
      .failed (some e) now) target = _
    rw [lookupId_update_ne _ _ _ _ _ _ (Ne.symm h)]
    exact lookupId_increment_ne _ _ _ (Ne.symm h)
  | ok resp0 =>
    simp only []
    split
    · exact lookupId_update_ne _ _ _ _ _ _ (Ne.symm h)
    · show lookupId (updateMessageStatus (incrementRetry s2 m2.id).1 m2.id
        .failed (some "Failed to send response") now) target = _
      rw [lookupId_update_ne _ _ _ _ _ _ (Ne.symm h)]
      exact lookupId_increment_ne _ _ _ (Ne.symm h)

theorem processSingle_lookup_ne (hl : String) (env : MsgEnv) (s : Store)
    (vc : ℕ) (m : StoredMessage) (now : ℚ) (target : String)
    (h : m.id ≠ target) :
    lookupId (processSingleMessage hl env s vc m now).store target =
      lookupId s target := by
  have hid := processParsePhase_fst_id hl s m now
  simp only [processSingleMessage]
  split
  · rw [hid, lookupId_update_ne _ _ _ _ _ _ (Ne.symm h)]
    exact processParsePhase_lookup_ne hl s m now target h
  · rw [processDispatch_lookup_ne _ _ _ _ _ _ _ (hid ▸ h)]
    exact processParsePhase_lookup_ne hl s m now target h

theorem sendAttempts_events (send : ℕ → SendOutcome) (txt : String) :
    ∀ (n i : ℕ) (ev : Event), ev ∈ (sendAttemptsFrom send txt i n).2 →
      ∃ t, ev = .sendAttempted t := by
  intro n
  induction n with
  | zero => intro i ev hev; cases hev
  | succ n ih =>
    intro i ev hev
    unfold sendAttemptsFrom at hev
    cases hsend : send i with
    | ok =>
      simp only [hsend, List.mem_singleton] at hev
      exact ⟨txt, hev⟩
    | returnedFalse =>
      simp only [hsend] at hev
      rcases List.mem_cons.mp hev with hev | hev
      · exact ⟨txt, hev⟩
      · exact ih (i+1) ev hev
    | threw =>
      simp only [hsend] at hev
      rcases List.mem_cons.mp hev with hev | hev
      · exact ⟨txt, hev⟩
      · exact ih (i+1) ev hev

theorem processDispatch_events (hl : String) (env : MsgEnv) (s2 : Store)
    (vc : ℕ) (m2 : StoredMessage) (now : ℚ) (target : String) (ev : Event)
    (hev : ev ∈ (processDispatch hl env s2 vc m2 now).events)
    (hpc : isPluginCallFor target ev) : target = m2.id := by
  obtain ⟨sd, en, rfl⟩ := hpc
  unfold processDispatch at hev
  cases hp : env.plugin with
  | error e =>
    simp only [hp, List.mem_singleton] at hev
    simp only [Event.pluginCalled.injEq] at hev
    exact hev.1
  | ok resp0 =>
    simp only [hp] at hev
    split at hev <;>
    · rcases List.mem_cons.mp hev with hev | hev
      · simp only [Event.pluginCalled.injEq] at hev
        exact hev.1
      · obtain ⟨t, ht⟩ := sendAttempts_events env.send _ _ _ _ hev
        cases ht

theorem processSingle_events (hl : String) (env : MsgEnv) (s : Store)
    (vc : ℕ) (m : StoredMessage) (now : ℚ) (target : String) (ev : Event)
    (hev : ev ∈ (processSingleMessage hl env s vc m now).events)
    (hpc : isPluginCallFor target ev) : target = m.id := by
  have hid := processParsePhase_fst_id hl s m now
  simp only [processSingleMessage] at hev
  split at hev
  · cases hev
  · rw [← hid]
    exact processDispatch_events hl env _ vc _ now target ev hev hpc

theorem processPendingStep_lookup_ne (hl : String) (envOf : String → MsgEnv)
    (now : ℚ) (acc : ProcResult) (x : StoredMessage) (target : String)
    (hx : x.id ≠ target) :
    lookupId (processPendingStep hl envOf now acc x).store target =
      lookupId acc.store target := by
  unfold processPendingStep
  split
  · exact lookupId_update_ne _ _ _ _ _ _ (Ne.symm hx)
  · split
    · exact lookupId_update_ne _ _ _ _ _ _ (Ne.symm hx)
    · exact processSingle_lookup_ne hl (envOf x.id) acc.store acc.vc x now
        target hx

theorem processPendingFold_lookup_ne (hl : String) (envOf : String → MsgEnv)
    (now : ℚ) (l : List StoredMessage) (acc : ProcResult) (target : String)
    (h : ∀ x ∈ l, x.id ≠ target) :
    lookupId (l.foldl (processPendingStep hl envOf now) acc).store target =
      lookupId acc.store target := by
  induction l generalizing acc with
  | nil => rfl
  | cons x l ih =>
    rw [List.foldl_cons,
      ih _ (fun y hy => h y (List.mem_cons_of_mem x hy)),
      processPendingStep_lookup_ne hl envOf now acc x target
        (h x (List.mem_cons_self x l))]

theorem processPendingFold_no_plugin (hl : String) (envOf : String → MsgEnv)
    (now : ℚ) (l : List StoredMessage) (acc : ProcResult) (target : String)
    (hcond : ∀ x ∈ l, x.id = target →
      maxRetries ≤ x.retry_count ∨ messageTimeout < now - x.created_at)
    (hacc : ∀ ev ∈ acc.events, ¬ isPluginCallFor target ev) :
    ∀ ev ∈ (l.foldl (processPendingStep hl envOf now) acc).events,
      ¬ isPluginCallFor target ev := by
  induction l generalizing acc with
  | nil => exact hacc
  | cons x l ih =>
    rw [List.foldl_cons]
    refine ih _ (fun y hy => hcond y (List.mem_cons_of_mem x hy)) ?_
    intro ev hev hpc
    revert hev
    unfold processPendingStep
    split
    · exact fun hev => hacc ev hev hpc
    · split
      · exact fun hev => hacc ev hev hpc
      · intro hev
        simp only [List.mem_append] at hev
        rcases hev with hev | hev
        · exact hacc ev hev hpc
        · have hxid := processSingle_events hl (envOf x.id) acc.store acc.vc
            x now target ev hev hpc
          have := hcond x (List.mem_cons_self x l) hxid.symm
          rename_i hnot1 hnot2
          rcases this with hc | hc
          · exact hnot1 hc
          · exact hnot2 hc

theorem inflightChecks_eq (pr : ℚ → Bool) :
    ∀ (ts : List ℚ) (hc : HealthChecker), ts ≠ [] →
      inflightChecks pr hc ts =
        { hc with
          consecutive_failures := 0
          last_successful_check := ts.getLastD 0 } := by
  intro ts
  induction ts with
  | nil => intro hc h; exact absurd rfl h
  | cons t ts ih =>
    intro hc _
    cases ts with
    | nil => simp [inflightChecks, healthCheck, List.getLastD]
    | cons t' ts' =>
      have h2 : (t' :: ts') ≠ [] := by simp
      calc inflightChecks pr hc (t :: t' :: ts')
          = inflightChecks pr (healthCheck hc true (pr t) t).1 (t' :: ts') :=
            rfl
        _ = _ := by rw [ih _ h2]; simp [healthCheck, List.getLastD]

/-- C5 (backoff bounds): with the monitor's backoff parameters
(`base_delay=1, multiplier=2, max_delay=300`, jitter on), for every
attempt count and every admissible jitter draw, the returned delay lies
between 0.1 and `max_delay * 1.25`; in particular the delay for attempt
10 is at most 375 and never 1024. -/
theorem backoff_delay_bounds (n : ℕ) (u : ℚ)
    (hu : |u| ≤ preJitterDelay monitorBackoff n / 4) :
    (1/10 ≤ getDelay monitorBackoff n u ∧
      getDelay monitorBackoff n u ≤ monitorBackoff.max_delay * (5/4)) ∧
    (n = 10 → getDelay monitorBackoff n u ≤ 375 ∧
      getDelay monitorBackoff n u ≠ 1024) := by
  have hg : getDelay monitorBackoff n u =
      max (preJitterDelay monitorBackoff n + u) (1/10) := rfl
  have hd300 : preJitterDelay monitorBackoff n ≤ 300 :=
    min_le_right _ _
  have huu : u ≤ preJitterDelay monitorBackoff n / 4 :=
    le_trans (le_abs_self u) hu
  have hup : getDelay monitorBackoff n u ≤ 375 := by
    rw [hg]
    refine max_le (by linarith) (by norm_num)
  have hmax : monitorBackoff.max_delay = 300 := rfl
  refine ⟨⟨?_, ?_⟩, fun _ => ⟨hup, ?_⟩⟩
  · rw [hg]; exact le_max_right _ _
  · rw [hmax]; linarith
  · intro hbad
    rw [hbad] at hup
    norm_num at hup

/-- Witness for C5 at attempt 10 with the maximal admissible jitter
draw 75. -/
theorem backoff_delay_bounds_witness :
    1/10 ≤ getDelay monitorBackoff 10 75 ∧
      getDelay monitorBackoff 10 75 ≠ 1024 := by
  have hu : |(75 : ℚ)| ≤ preJitterDelay monitorBackoff 10 / 4 := by
    have : preJitterDelay monitorBackoff 10 = 300 := by
      simp only [preJitterDelay, monitorBackoff]
      norm_num
    rw [this]
    norm_num
  exact ⟨(backoff_delay_bounds 10 75 hu).1.1,
    ((backoff_delay_bounds 10 75 hu).2 rfl).2⟩

/-- C10 (implicit): when the transport reports a request already in
flight, `health_check` issues no probe and unconditionally counts the
check as a success — it resets `consecutive_failures` to 0 and
refreshes `last_successful_check` — so after any nonempty run of
checks that all see an in-flight request, `is_healthy` still reports
true at any instant within two check intervals of the last check. -/
theorem health_check_inflight_counts_success (hc : HealthChecker)
    (pr0 : Bool) (now : ℚ) (pr : ℚ → Bool) (ts : List ℚ) (t : ℚ)
    (hne : ts ≠ []) (hmf : 0 < hc.max_failures)
    (ht : t - ts.getLastD 0 < hc.check_interval * 2) :
    healthCheck hc true pr0 now =
      ({ hc with last_successful_check := now, consecutive_failures := 0 },
        true, false) ∧
    isHealthy (inflightChecks pr hc ts) t = true := by
  constructor
  · rfl
  · rw [inflightChecks_eq pr ts hc hne]
    simp only [isHealthy, Bool.and_eq_true, decide_eq_true_eq]
    exact ⟨hmf, ht⟩

/-- C1 (code bug): `_generate_message_id` salts the hash with
`time.time()`, so two ingestions of the byte-identical payload at
different instants get different ids — `_is_duplicate_message` never
fires and the store ends up with two rows instead of one. -/
theorem ingestion_not_idempotent :
    ((ingestRaw
        (ingestRaw [] "✅ WAIT SUCCESS\n• @bob: hi @agent" "1000.0" 1000).1
        "✅ WAIT SUCCESS\n• @bob: hi @agent" "1030.0" 1030).1).length = 2 ∧
    generateMessageId "✅ WAIT SUCCESS\n• @bob: hi @agent" "1000.0" ≠
      generateMessageId "✅ WAIT SUCCESS\n• @bob: hi @agent" "1030.0" := by
  decide

/-- C9 (code bug): on a real newline-separated blob the bulleted-entry
strategy never matches, because `_parse_message` splits on the literal
two-character text backslash-`n` (not on newlines) and its line pattern
demands literal backslashes after the bullet and the colon; the fallback
strategy then returns the whole blob with the banner still glued to the
author, not the bulleted line the spec describes. -/
theorem parse_message_bulleted_strategy_dead :
    parseMessage "@agent" "✅ WAIT SUCCESS\n• @bob: hi @agent" =
      (some "✅ WAIT SUCCESS\n• @bob",
        some "✅ WAIT SUCCESS\n• @bob: hi @agent", some "@bob") ∧
    parseMessage "@agent" "✅ WAIT SUCCESS\n• @bob: hi @agent" ≠
      (some "@bob", some "• @bob: hi @agent", some "@bob") := by
  decide

/-- C8 counterexample: with the health checker reporting unhealthy and
all ten reconnect attempts failing, the loop body raises — an exception
escapes the control loop during steady-state operation. -/
theorem steady_state_crash_cex :
    runCycle
      { store := []
        vc := 0
        last_wait_success := 0
        consecutive_idle_polls := 0
        last_idle_report := 0 } "@agent"
      { now := 0
        healthy := false
        connect1 := fun _ => false
        envOf := fun _ => { plugin := .ok "", send := fun _ => .ok }
        poll := .ok none
        pollTimeRepr := "0.0"
        pollNow := 0
        idleNow := 0
        idleNow2 := 0
        connect2 := fun _ => false } =
      .error "connection failed" := rfl

/-- C8 (amended): during steady state every per-message and per-poll
error is contained — as long as each reconnect the cycle performs
succeeds within its ten attempts, the loop body returns normally
whatever the plugin, send and poll outcomes are; only reconnect
exhaustion (and external shutdown) ends the loop. -/
theorem steady_state_errors_contained (st : MonitorState)
    (handleLower : String) (env : CycleEnv)
    (h1 : env.healthy = false → reliableConnect env.connect1 = .ok ())
    (h2 : reliableConnect env.connect2 = .ok ()) :
    ∃ st', runCycle st handleLower env = .ok st' := by
  have hconn : (if !env.healthy then reliableConnect env.connect1
      else .ok ()) = .ok () := by
    cases hh : env.healthy with
    | true => simp [hh]
    | false => simp [hh, h1 hh]
  simp only [runCycle, hconn, maybeRecoverFromIdle]
  split
  · exact ⟨_, rfl⟩
  · split
    · rw [h2]
      exact ⟨_, rfl⟩
    · exact ⟨_, rfl⟩

/-- Witness for C8 (amended): a healthy, quiescent cycle whose plugin
raises and whose sends all fail still returns normally. -/
theorem steady_state_errors_contained_witness :
    ∃ st', runCycle
      { store := []
        vc := 0
        last_wait_success := 0
        consecutive_idle_polls := 0
        last_idle_report := 0 } "@agent"
      { now := 1
        healthy := true
        connect1 := fun _ => false
        envOf := fun _ =>
          { plugin := .error "plugin blew up", send := fun _ => .threw }
        poll := .error "poll timed out"
        pollTimeRepr := "1.0"
        pollNow := 1
        idleNow := 1
        idleNow2 := 1
        connect2 := fun _ => true } = .ok st' := by
  exact steady_state_errors_contained _ "@agent" _
    (fun h => nomatch h) rfl

/-- C4 (code bug): `update_message_status` writes NULL into
`processed_at` whenever it records FAILED, so the retry sweep's
elapsed-time gate never has a last-attempt time to compare against:
every FAILED row under the retry cap is flipped straight back to
PENDING regardless of the backoff delay, the clock and the jitter. -/
theorem retry_sweep_requeues_without_backoff :
    (∀ (s : Store) (id : String) (e : Option String) (now : ℚ)
        (m' : StoredMessage),
      lookupId (updateMessageStatus s id .failed e now) id = some m' →
      m'.processed_at = none) ∧
    (∀ (s : Store) (now : ℚ) (jit : String → ℚ) (m : StoredMessage),
      (s.map StoredMessage.id).Nodup → m ∈ s → m.status = .failed →
      m.retry_count < maxRetries → m.processed_at = none →
      lookupId (retrySweep s now jit) m.id =
        some { m with status := .pending }) := by
  constructor
  · intro s id e now m' hm
    rw [lookupId_update_self] at hm
    cases hl : lookupId s id with
    | none => rw [hl] at hm; cases hm
    | some r =>
      rw [hl] at hm
      have hm' : m' =
          { r with
            status := .failed
            processed_at := none
            error_message := e } := by
        simpa [statusTerminal] using hm.symm
      rw [hm']
  · intro s now jit m hn hm hst hrc hpa
    have hstep_ne : ∀ (acc : Store) (x : StoredMessage) (target : String),
        x.id ≠ target →
        lookupId (retryStep now jit acc x) target = lookupId acc target := by
      intro acc x target hx
      unfold retryStep
      cases hbind : (lookupId acc x.id).bind (fun r => r.processed_at) with
      | none =>
        simp only [hbind]
        exact lookupId_setPending_ne acc target x.id (Ne.symm hx)
      | some t =>
        simp only [hbind]
        split
        · rfl
        · exact lookupId_setPending_ne acc target x.id (Ne.symm hx)
    have hfold_ne : ∀ (l : List StoredMessage) (acc : Store)
        (target : String), (∀ x ∈ l, x.id ≠ target) →
        lookupId (l.foldl (retryStep now jit) acc) target =
          lookupId acc target := by
      intro l
      induction l with
      | nil => intro acc target _; rfl
      | cons x l ih =>
        intro acc target hl
        rw [List.foldl_cons, ih _ _ (fun y hy => hl y (List.mem_cons_of_mem x hy)),
          hstep_ne acc x target (hl x (List.mem_cons_self x l))]
    unfold retrySweep
    have hmem : m ∈ s.filter (fun x =>
        x.status == .failed && decide (x.retry_count < maxRetries)) := by
      refine List.mem_filter.mpr ⟨hm, ?_⟩
      simp [hst, hrc]
    have hsn : ((s.filter (fun x =>
        x.status == .failed && decide (x.retry_count < maxRetries))).map
          StoredMessage.id).Nodup :=
      hn.sublist (List.Sublist.map _ (List.filter_sublist s))
    obtain ⟨l1, l2, hsplit⟩ := List.append_of_mem hmem
    rw [hsplit] at hsn ⊢
    rw [List.map_append, List.map_cons] at hsn
    have hnd : m.id ∉ (l1.map StoredMessage.id) ++ (l2.map StoredMessage.id) := by
      have h' := List.nodup_middle.mp hsn
      exact (List.nodup_cons.mp h').1
    have hids : ∀ x ∈ l1 ++ l2, x.id ≠ m.id := by
      intro x hx hbad
      rcases List.mem_append.mp hx with hx1 | hx2
      · exact hnd (List.mem_append.mpr (.inl
          (hbad ▸ List.mem_map_of_mem StoredMessage.id hx1)))
      · exact hnd (List.mem_append.mpr (.inr
          (hbad ▸ List.mem_map_of_mem StoredMessage.id hx2)))
    rw [List.foldl_append, List.foldl_cons]
    have hacc1 : lookupId (l1.foldl (retryStep now jit) s) m.id = some m := by
      rw [hfold_ne l1 s m.id
        (fun x hx => hids x (List.mem_append.mpr (.inl hx)))]
      exact lookupId_of_mem s m hn hm
    have hstep_self : ∀ acc : Store, lookupId acc m.id = some m →
        lookupId (retryStep now jit acc m) m.id =
          some { m with status := .pending } := by
      intro acc hacc
      have hb : (lookupId acc m.id).bind (fun r => r.processed_at) = none := by
        rw [hacc]
        simpa using hpa
      unfold retryStep
      simp only [hb]
      rw [lookupId_setPending_self, hacc]
      rfl
    rw [hfold_ne l2 _ m.id
      (fun x hx => hids x (List.mem_append.mpr (.inr hx)))]
    exact hstep_self _ hacc1

/-- Witness for C4: a row that failed around clock 0 (retry 1, so a
backoff delay of about 2 seconds) is already requeued by a sweep at
clock 1. -/
theorem retry_sweep_requeues_without_backoff_witness :
    lookupId (retrySweep [sampleFailedRow] 1 (fun _ => 0)) "f1" =
      some { sampleFailedRow with status := .pending } :=
  retry_sweep_requeues_without_backoff.2 [sampleFailedRow] 1 (fun _ => 0)
    sampleFailedRow (by decide) (List.mem_singleton.mpr rfl) rfl
    (by decide) rfl

/-- Witness for C10. -/
theorem health_check_inflight_counts_success_witness :
    healthCheck { last_successful_check := 0, consecutive_failures := 5 }
        true false 1000 =
      ({ last_successful_check := 1000, consecutive_failures := 0 },
        true, false) ∧
    isHealthy (inflightChecks (fun _ => false)
      { last_successful_check := 0, consecutive_failures := 5 }
      [1000, 1060]) 1100 = true := by
  refine health_check_inflight_counts_success _ false 1000 _ _ 1100
    (by simp) (by norm_num) ?_
  norm_num [List.getLastD]

theorem mem_getPendingMessages (s : Store) (m : StoredMessage) :
    m ∈ getPendingMessages s ↔
      m ∈ s ∧ (m.status = .pending ∨ m.status = .failed) := by
  unfold getPendingMessages
  rw [(List.perm_insertionSort _ _).mem_iff, List.mem_filter]
  constructor
  · rintro ⟨h1, h2⟩
    refine ⟨h1, ?_⟩
    simpa using h2
  · rintro ⟨h1, h2⟩
    refine ⟨h1, ?_⟩
    simpa using h2

theorem getPending_ids_nodup (s : Store)
    (hn : (s.map StoredMessage.id).Nodup) :
    ((getPendingMessages s).map StoredMessage.id).Nodup := by
  unfold getPendingMessages
  have hperm := (List.perm_insertionSort
    (fun a b : StoredMessage => a.created_at ≤ b.created_at)
    (s.filter (fun m => m.status == .pending || m.status == .failed))).map
      StoredMessage.id
  exact hperm.nodup_iff.mpr
    (hn.sublist (List.Sublist.map _ (List.filter_sublist s)))

/-- C2: every PENDING or FAILED row whose retry count has reached
`max_retries` (5), or whose age exceeds `message_timeout` (300 s), is
transitioned to DEAD_LETTER by the next processing pass with the
corresponding reason recorded, and no plugin call is made for it during
that pass. -/
theorem exhausted_rows_dead_lettered (hl : String) (envOf : String → MsgEnv)
    (s : Store) (vc : ℕ) (now : ℚ) (m : StoredMessage)
    (hn : (s.map StoredMessage.id).Nodup) (hm : m ∈ s)
    (hst : m.status = .pending ∨ m.status = .failed)
    (hcond : maxRetries ≤ m.retry_count ∨
      messageTimeout < now - m.created_at) :
    (∃ m', lookupId (processPendingMessages hl envOf s vc now).store m.id =
        some m' ∧ m'.status = .dead_letter ∧
        (m'.error_message = some retryExhaustedMsg ∨
          m'.error_message = some timeoutMsg)) ∧
    ∀ ev ∈ (processPendingMessages hl envOf s vc now).events,
      ¬ isPluginCallFor m.id ev := by
  have hmemP : m ∈ getPendingMessages s :=
    (mem_getPendingMessages s m).mpr ⟨hm, hst⟩
  have hsnod := getPending_ids_nodup s hn
  constructor
  · obtain ⟨l1, l2, hsplit⟩ := List.append_of_mem hmemP
    unfold processPendingMessages
    rw [hsplit]
    rw [hsplit, List.map_append, List.map_cons] at hsnod
    have hnd := (List.nodup_cons.mp (List.nodup_middle.mp hsnod)).1
    have hids : ∀ x ∈ l1 ++ l2, x.id ≠ m.id := by
      intro x hx hbad
      rcases List.mem_append.mp hx with hx1 | hx2
      · exact hnd (List.mem_append.mpr (.inl
          (hbad ▸ List.mem_map_of_mem StoredMessage.id hx1)))
      · exact hnd (List.mem_append.mpr (.inr
          (hbad ▸ List.mem_map_of_mem StoredMessage.id hx2)))
    rw [List.foldl_append, List.foldl_cons]
    rw [processPendingFold_lookup_ne hl envOf now l2 _ m.id
      (fun x hx => hids x (List.mem_append.mpr (.inr hx)))]
    have hacc1 : lookupId
        (l1.foldl (processPendingStep hl envOf now)
          { store := s, vc := vc, events := [] }).store m.id = some m := by
      rw [processPendingFold_lookup_ne hl envOf now l1 _ m.id
        (fun x hx => hids x (List.mem_append.mpr (.inl hx)))]
      exact lookupId_of_mem s m hn hm
    have hstep : ∀ acc : ProcResult, lookupId acc.store m.id = some m →
        ∃ m', lookupId (processPendingStep hl envOf now acc m).store m.id =
          some m' ∧ m'.status = .dead_letter ∧
          (m'.error_message = some retryExhaustedMsg ∨
            m'.error_message = some timeoutMsg) := by
      intro acc hacc
      unfold processPendingStep
      by_cases hc1 : maxRetries ≤ m.retry_count
      · rw [if_pos hc1]
        refine ⟨{ m with
            status := .dead_letter
            processed_at := some now
            error_message := some retryExhaustedMsg }, ?_, rfl, .inl rfl⟩
        rw [lookupId_update_self, hacc]
        rfl
      · have hc2 : messageTimeout < now - m.created_at := by
          rcases hcond with hc | hc
          · exact absurd hc hc1
          · exact hc
        rw [if_neg hc1, if_pos hc2]
        refine ⟨{ m with
            status := .dead_letter
            processed_at := some now
            error_message := some timeoutMsg }, ?_, rfl, .inr rfl⟩
        rw [lookupId_update_self, hacc]
        rfl
    exact hstep _ hacc1
  · unfold processPendingMessages
    refine processPendingFold_no_plugin hl envOf now _ _ m.id ?_ ?_
    · intro x hx hxid
      have hx_s : x ∈ s := ((mem_getPendingMessages s x).mp hx).1
      have hxm := eq_of_mem_same_id s m x hn hm hx_s hxid
      rw [hxm]
      exact hcond
    · intro ev hev
      cases hev

/-- Witness for C2: a pending row at the retry cap is dead-lettered
with the retry-exhaustion reason and its plugin is never invoked. -/
theorem exhausted_rows_dead_lettered_witness :
    (∃ m', lookupId (processPendingMessages "@agent"
        (fun _ => { plugin := .ok "", send := fun _ => .ok })
        [sampleExhaustedRow] 0 1).store "p1" =
        some m' ∧ m'.status = .dead_letter ∧
        (m'.error_message = some retryExhaustedMsg ∨
          m'.error_message = some timeoutMsg)) ∧
    ∀ ev ∈ (processPendingMessages "@agent"
        (fun _ => { plugin := .ok "", send := fun _ => .ok })
        [sampleExhaustedRow] 0 1).events,
      ¬ isPluginCallFor "p1" ev :=
  exhausted_rows_dead_lettered "@agent"
    (fun _ => { plugin := .ok "", send := fun _ => .ok })
    [sampleExhaustedRow] 0 1 sampleExhaustedRow (by decide)
    (List.mem_singleton.mpr rfl) (.inl rfl) (.inl (by decide))

/-- C3: once a row is DEAD_LETTER, none of the monitor's store-touching
operations (the pending-message pass, the retry sweep, the cleanup
sweep, ingestion) ever changes its status again, and the row is never
selected for processing. -/
theorem dead_letter_terminal (op : MonitorOp) (s : Store)
    (m : StoredMessage) (hn : (s.map StoredMessage.id).Nodup) (hm : m ∈ s)
    (hd : m.status = .dead_letter) :
    (∃ m', lookupId (applyOp op s) m.id = some m' ∧
      m'.status = .dead_letter) ∧
    m ∉ getPendingMessages s := by
  have hnotpend : m ∉ getPendingMessages s := by
    intro hc
    rcases ((mem_getPendingMessages s m).mp hc).2 with h | h <;>
      (rw [hd] at h; cases h)
  refine ⟨?_, hnotpend⟩
  cases op with
  | processPending hl envOf vc now =>
    have hids : ∀ x ∈ getPendingMessages s, x.id ≠ m.id := by
      intro x hx hbad
      have hx_s := ((mem_getPendingMessages s x).mp hx).1
      have hxm := eq_of_mem_same_id s m x hn hm hx_s hbad
      exact hnotpend (hxm ▸ hx)
    refine ⟨m, ?_, hd⟩
    show lookupId (processPendingMessages hl envOf s vc now).store m.id =
      some m
    unfold processPendingMessages
    rw [processPendingFold_lookup_ne hl envOf now _ _ m.id hids]
    exact lookupId_of_mem s m hn hm
  | retryFailed now jit =>
    have hids : ∀ x ∈ s.filter (fun x =>
        x.status == .failed && decide (x.retry_count < maxRetries)),
        x.id ≠ m.id := by
      intro x hx hbad
      have hx' := List.mem_filter.mp hx
      have hxm := eq_of_mem_same_id s m x hn hm hx'.1 hbad
      have hxf : x.status = .failed := by
        have := hx'.2
        simp only [Bool.and_eq_true, beq_iff_eq] at this
        exact this.1
      rw [hxm, hd] at hxf
      cases hxf
    refine ⟨m, ?_, hd⟩
    show lookupId (retrySweep s now jit) m.id = some m
    unfold retrySweep
    rw [retryFold_lookup_ne now jit _ s m.id hids]
    exact lookupId_of_mem s m hn hm
  | cleanup now =>
    refine ⟨m, ?_, hd⟩
    show lookupId (cleanupSweep s now) m.id = some m
    unfold cleanupSweep
    refine lookupId_filter_of_mem s m _ hn hm ?_
    rw [hd]
    rfl
  | ingest raw timeRepr now =>
    refine ⟨m, ?_, hd⟩
    show lookupId (ingestRaw s raw timeRepr now).1 m.id = some m
    unfold ingestRaw
    cases hdup : isDuplicateMessage s (generateMessageId raw timeRepr) with
    | true =>
      simp only [hdup, if_true]
      exact lookupId_of_mem s m hn hm
    | false =>
      simp only [hdup, Bool.false_eq_true, if_false]
      have hne : m.id ≠ generateMessageId raw timeRepr := by
        intro hbad
        have hdup' : isDuplicateMessage s
            (generateMessageId raw timeRepr) = true := by
          unfold isDuplicateMessage
          rw [← hbad, lookupId_of_mem s m hn hm]
          rfl
        rw [hdup] at hdup'
        cases hdup'
      rw [lookupId_store_ne]
      · exact lookupId_of_mem s m hn hm
      · exact hne

/-- Witness for C3: a dead-lettered row survives a cleanup sweep with
its status intact and is not in the pending snapshot. -/
theorem dead_letter_terminal_witness :
    (∃ m', lookupId (applyOp (.cleanup 100000) [sampleDeadRow]) "d1" =
      some m' ∧ m'.status = .dead_letter) ∧
    sampleDeadRow ∉ getPendingMessages [sampleDeadRow] :=
  dead_letter_terminal (.cleanup 100000) [sampleDeadRow] sampleDeadRow
    (by decide) (List.mem_singleton.mpr rfl) rfl

/-- C7 counterexample: a stored message whose parsed sender resolves to
`@unknown` but which mentions the agent is not gated at all — the
plugin is invoked with the `@unknown` placeholder as sender and a send
is attempted, contradicting the claim that response generation is
skipped. -/
theorem unknown_sender_still_processed_cex :
    resolveSenderHandle "@agent" sampleUnknownSenderRow = "@unknown" ∧
    (processSingleMessage "@agent"
        { plugin := .ok "hello there", send := fun _ => .ok }
        [sampleUnknownSenderRow] 0 sampleUnknownSenderRow 10).events =
      [.pluginCalled "u1" "@unknown"
          (enhancedMessage "@unknown" "✅ WAIT SUCCESS: hi"),
        .sendAttempted "hello there"] := by
  set_option maxRecDepth 4096 in decide

/-- C7 (amended): the pipeline gates on the mention check only, never
on the resolved sender: a parsed stored message that does not mention
the agent is marked COMPLETED with the explanatory note, with no plugin
call and no send; a parsed message that does mention the agent has the
plugin invoked even when its sender resolves to `@unknown`, with that
placeholder passed as the sender. -/
theorem mention_gating_not_sender_gating (hl : String) (env : MsgEnv)
    (s : Store) (vc : ℕ) (m : StoredMessage) (now : ℚ)
    (hp : parsedMentionFalsy m = false) :
    (isMentionForUs hl ((m.parsed_mention).getD "") = false →
      (processSingleMessage hl env s vc m now).events = [] ∧
      (processSingleMessage hl env s vc m now).store =
        updateMessageStatus
          (updateMessageStatus s m.id .processing none now) m.id
          .completed (some "Not a mention for this agent") now) ∧
    (isMentionForUs hl ((m.parsed_mention).getD "") = true →
      resolveSenderHandle hl m = "@unknown" →
      Event.pluginCalled m.id "@unknown"
          (enhancedMessage "@unknown" (cleanContent hl.data m)) ∈
        (processSingleMessage hl env s vc m now).events) := by
  have hps : processParsePhase hl s m now =
      (m, updateMessageStatus s m.id .processing none now) := by
    unfold processParsePhase
    rw [hp]
    simp
  constructor
  · intro hmf
    constructor
    · simp [processSingleMessage, hps, hmf]
    · simp [processSingleMessage, hps, hmf]
  · intro hmf hres
    simp only [processSingleMessage, hps, hmf, Bool.not_true,
      Bool.false_eq_true, if_false]
    cases hpl : env.plugin with
    | error e => simp [processDispatch, hpl, hres]
    | ok r =>
      simp only [processDispatch, hpl, hres]
      split
      · exact List.mem_cons_self _ _
      · exact List.mem_cons_self _ _

theorem band_elim {a b : Bool} (h : (a && b) = true) :
    a = true ∧ b = true := by
  cases a <;> cases b <;> simp_all

theorem bor_elim {a b : Bool} (h : (a || b) = true) :
    a = true ∨ b = true := by
  cases a <;> cases b <;> simp_all

theorem char_toNat_ofNat {n : ℕ} (h : n < 55296) :
    (Char.ofNat n).toNat = n := by
  rw [Char.ofNat, dif_pos (Or.inl h)]
  rfl

/-- Lowering can only produce a basic latin lowercase letter out of a
different character, so any character whose lowering is a non-letter is
that character itself. -/
theorem eq_of_toLower_eq_nonletter (u d : Char)
    (hd : d.toNat < 97 ∨ 122 < d.toNat) (h : Char.toLower u = d) :
    u = d := by
  by_cases hc : u.toNat ≥ 65 ∧ u.toNat ≤ 90
  · exfalso
    have h' : Char.ofNat (u.toNat + 32) = d := by
      rw [← h]
      simp [Char.toLower, hc]
    have h1 : (Char.ofNat (u.toNat + 32)).toNat = u.toNat + 32 :=
      char_toNat_ofNat (by omega)
    rw [h'] at h1
    omega
  · rw [← h]
    simp [Char.toLower, hc]

theorem caseEqChar_concrete (u d : Char) (hd : Char.toLower d = d)
    (hdn : d.toNat < 97 ∨ 122 < d.toNat) (h : caseEqChar u d = true) :
    u = d := by
  unfold caseEqChar at h
  rw [hd] at h
  exact eq_of_toLower_eq_nonletter u d hdn (beq_iff_eq.mp h)

theorem ciHeadMatch_length (hl : List Char) :
    ∀ s, ciHeadMatch hl s = true → hl.length ≤ s.length := by
  induction hl with
  | nil => intro s _; exact Nat.zero_le _
  | cons c cs ih =>
    intro s h
    cases s with
    | nil => cases h
    | cons d ds =>
      have h2 := (band_elim h).2
      have := ih ds h2
      simp only [List.length_cons]
      omega

theorem allOccB_cons_elim (hl : List Char) (prev : Option Char) (c : Char)
    (rest : List Char) (h : allOccB hl prev (c :: rest) = true) :
    (ciHeadMatch hl (c :: rest) = true →
      matchHere hl prev (c :: rest) = true) ∧
    allOccB hl (some c) rest = true := by
  have h' := band_elim h
  refine ⟨?_, h'.2⟩
  intro hh
  rcases bor_elim h'.1 with hx | hx
  · rw [hh] at hx
    cases hx
  · exact hx

theorem allOccB_drop (hl : List Char) :
    ∀ (k : ℕ) (s : List Char) (prev : Option Char),
      allOccB hl prev s = true →
      allOccB hl (prevAt prev s k) (s.drop k) = true := by
  intro k
  induction k with
  | zero => intro s prev h; exact h
  | succ k ih =>
    intro s prev h
    cases s with
    | nil => rfl
    | cons c rest =>
      have h2 := (allOccB_cons_elim hl prev c rest h).2
      have hrec := ih rest (some c) h2
      rw [List.drop_succ_cons]
      cases k with
      | zero =>
        have h1 : prevAt prev (c :: rest) 1 = some c := by
          simp [prevAt]
        rw [h1]
        simpa [prevAt] using hrec
      | succ j =>
        show allOccB hl (prevAt prev (c :: rest) (j+2))
          (rest.drop (j+1)) = true
        cases hg : rest[j]? with
        | some x =>
          have : prevAt prev (c :: rest) (j+2) =
              prevAt (some c) rest (j+1) := by
            simp [prevAt, hg, List.getElem?_cons_succ]
          rw [this]
          exact hrec
        | none =>
          have hlen : rest.length ≤ j := by
            have := List.getElem?_eq_none_iff.mp hg
            omega
          have : rest.drop (j+1) = [] :=
            List.drop_eq_nil_of_le (by omega)
          rw [this]
          rfl

theorem hasOcc_atfree (t A : List Char)
    (hA : ∀ a ∈ A, caseEqChar '@' a = false) :
    hasOcc ('@' :: t) A = false := by
  induction A with
  | nil => rfl
  | cons a A ih =>
    have ha : caseEqChar '@' a = false := hA a (List.mem_cons_self a A)
    show (ciHeadMatch ('@' :: t) (a :: A) || hasOcc ('@' :: t) A) = false
    have hh : ciHeadMatch ('@' :: t) (a :: A) = false := by
      show (caseEqChar '@' a && ciHeadMatch t A) = false
      rw [ha, Bool.false_and]
    rw [hh, Bool.false_or]
    exact ih (fun x hx => hA x (List.mem_cons_of_mem a hx))

theorem hasOcc_append_atfree (t A B : List Char)
    (hA : ∀ a ∈ A, caseEqChar '@' a = false) :
    hasOcc ('@' :: t) (A ++ B) = hasOcc ('@' :: t) B := by
  induction A with
  | nil => rfl
  | cons a A ih =>
    have ha : caseEqChar '@' a = false := hA a (List.mem_cons_self a A)
    show (ciHeadMatch ('@' :: t) (a :: (A ++ B)) ||
      hasOcc ('@' :: t) (A ++ B)) = hasOcc ('@' :: t) B
    have hh : ciHeadMatch ('@' :: t) (a :: (A ++ B)) = false := by
      show (caseEqChar '@' a && ciHeadMatch t (A ++ B)) = false
      rw [ha, Bool.false_and]
    rw [hh, Bool.false_or]
    exact ih (fun x hx => hA x (List.mem_cons_of_mem a hx))

theorem ciHeadMatch_append (u : List Char) :
    ∀ (T r : List Char), ciHeadMatch u T = true →
      ciHeadMatch u (T ++ r) = true := by
  induction u with
  | nil => intro T r _; rfl
  | cons c cs ih =>
    intro T r h
    cases T with
    | nil => cases h
    | cons d ds =>
      have h' := band_elim h
      show (caseEqChar c d && ciHeadMatch cs (ds ++ r)) = true
      rw [h'.1, ih ds r h'.2]
      rfl

theorem hasOcc_of_prefix (t : List Char) :
    ∀ (A B : List Char), hasOcc ('@' :: t) A = true →
      hasOcc ('@' :: t) (A ++ B) = true := by
  intro A
  induction A with
  | nil => intro B h; cases h
  | cons a A ih =>
    intro B h
    rcases bor_elim h with hh | hh
    · show (ciHeadMatch ('@' :: t) (a :: (A ++ B)) ||
        hasOcc ('@' :: t) (A ++ B)) = true
      rw [show ciHeadMatch ('@' :: t) (a :: (A ++ B)) = true from
        ciHeadMatch_append _ (a :: A) B hh]
      rfl
    · show (ciHeadMatch ('@' :: t) (a :: (A ++ B)) ||
        hasOcc ('@' :: t) (A ++ B)) = true
      rw [ih B hh, Bool.or_true]

theorem rstrip_is_a_head_part (s : List Char) :
    ∃ b, s = rstripList s ++ b := by
  refine ⟨(s.reverse.takeWhile pyWhitespace).reverse, ?_⟩
  unfold rstripList
  rw [← List.reverse_append, List.takeWhile_append_dropWhile,
    List.reverse_reverse]

theorem hasOcc_rstrip_false (t s : List Char)
    (h : hasOcc ('@' :: t) s = false) :
    hasOcc ('@' :: t) (rstripList s) = false := by
  obtain ⟨b, hb⟩ := rstrip_is_a_head_part s
  cases hr : hasOcc ('@' :: t) (rstripList s) with
  | false => rfl
  | true =>
    exfalso
    have := hasOcc_of_prefix t (rstripList s) b hr
    rw [← hb, h] at this
    cases this

/-- A case-insensitive match of an all-word-character pattern against
the scan output can be read back on the input: the scan only ever
prepends copied input characters or the marker, and the marker opens
with a bracket no word character can match. -/
theorem word_match_through_scan (hl : List Char) :
    ∀ (u : List Char), (∀ c ∈ u, wordChar c = true) →
    ∀ (fuel : ℕ) (prev : Option Char) (rest : List Char),
      ciHeadMatch u (subScanGo hl markerChars fuel prev rest) = true →
      ciHeadMatch u rest = true := by
  intro u
  induction u with
  | nil => intro _ fuel prev rest _; rfl
  | cons u0 u' ih =>
    intro hu fuel prev rest h
    cases fuel with
    | zero => simp [subScanGo, ciHeadMatch] at h
    | succ fuel =>
      cases rest with
      | nil => simp [subScanGo, ciHeadMatch] at h
      | cons d rest' =>
        by_cases hm : matchHere hl prev (d :: rest') = true
        · exfalso
          unfold subScanGo at h
          rw [if_pos hm] at h
          have h0 : caseEqChar u0 '[' = true := by
            have := (band_elim h).1
            exact this
          have hu0 : u0 = '[' :=
            caseEqChar_concrete u0 '[' (by decide) (by decide) h0
          have hw : wordChar u0 = true := hu u0 (List.mem_cons_self _ _)
          rw [hu0] at hw
          cases hw
        · unfold subScanGo at h
          rw [if_neg hm] at h
          have h' := band_elim h
          show (caseEqChar u0 d && ciHeadMatch u' rest') = true
          rw [h'.1,
            ih (fun c hc => hu c (List.mem_cons_of_mem u0 hc)) fuel
              (some d) rest' h'.2]
          rfl

/-- Core sanitization soundness: when every occurrence of the handle in
the scanned text is word-bounded, the scan output contains no
occurrence of the handle at all. -/
theorem subScan_no_occurrence (t : List Char)
    (ht : ∀ c ∈ t, wordChar c = true) :
    ∀ (fuel : ℕ) (s : List Char) (prev : Option Char),
      s.length ≤ fuel →
      allOccB ('@' :: t) prev s = true →
      hasOcc ('@' :: t) (subScanGo ('@' :: t) markerChars fuel prev s) =
        false := by
  intro fuel
  induction fuel with
  | zero =>
    intro s prev hlen _
    have hs : s = [] := List.length_eq_zero.mp (Nat.le_zero.mp hlen)
    subst hs
    rfl
  | succ fuel ih =>
    intro s prev hlen hocc
    cases s with
    | nil => rfl
    | cons c rest =>
      obtain ⟨hhead, htail⟩ := allOccB_cons_elim _ prev c rest hocc
      by_cases hm : matchHere ('@' :: t) prev (c :: rest) = true
      · unfold subScanGo
        rw [if_pos hm]
        have hmarker : ∀ a ∈ markerChars, caseEqChar '@' a = false := by
          decide
        rw [hasOcc_append_atfree t markerChars _ hmarker]
        have hci : ciHeadMatch ('@' :: t) (c :: rest) = true :=
          (band_elim (band_elim hm).1).1
        have hlenm := ciHeadMatch_length ('@' :: t) (c :: rest) hci
        simp only [List.length_cons] at hlenm hlen
        have hrange : t.length < (c :: rest).length := by
          simp only [List.length_cons]
          omega
        have hget : (c :: rest)[t.length]? = some ((c :: rest).getD
            (('@' :: t).length - 1) c) := by
          have h1 : (('@' :: t).length - 1) = t.length := by simp
          rw [h1, List.getD_eq_getElem?_getD, List.getElem?_eq_getElem hrange]
          rfl
        have hdropped := allOccB_drop ('@' :: t) (t.length + 1) (c :: rest)
          prev hocc
        have hprevAt : prevAt prev (c :: rest) (t.length + 1) =
            some ((c :: rest).getD (('@' :: t).length - 1) c) := by
          show (match (c :: rest)[t.length]? with
            | some x => some x
            | none => prev) = _
          rw [hget]
        rw [hprevAt] at hdropped
        have hdrop_eq : (c :: rest).drop (t.length + 1) =
            rest.drop (('@' :: t).length - 1) := by
          simp [List.drop_succ_cons]
        rw [hdrop_eq] at hdropped
        refine ih _ _ ?_ hdropped
        have := List.length_drop (('@' :: t).length - 1) rest
        simp only [List.length_cons] at this ⊢
        omega
      · unfold subScanGo
        rw [if_neg hm]
        have hout := ih rest (some c) (by
          simp only [List.length_cons] at hlen
          omega) htail
        show (ciHeadMatch ('@' :: t)
          (c :: subScanGo ('@' :: t) markerChars fuel (some c) rest) ||
          hasOcc ('@' :: t)
            (subScanGo ('@' :: t) markerChars fuel (some c) rest)) = false
        rw [hout, Bool.or_false]
        cases hh : ciHeadMatch ('@' :: t)
            (c :: subScanGo ('@' :: t) markerChars fuel (some c) rest) with
        | false => rfl
        | true =>
          exfalso
          have h' := band_elim hh
          have hrest : ciHeadMatch t rest = true :=
            word_match_through_scan ('@' :: t) t ht fuel (some c) rest h'.2
          have hci : ciHeadMatch ('@' :: t) (c :: rest) = true := by
            show (caseEqChar '@' c && ciHeadMatch t rest) = true
            rw [h'.1, hrest]
            rfl
          exact hm (hhead hci)

/-- A match of an all-word pattern cannot cross a newline: it stops
inside the part before the separator. -/
theorem word_match_stops_before_newline (u : List Char)
    (hu : ∀ c ∈ u, wordChar c = true) (P : List Char) :
    ∀ T, ciHeadMatch u (T ++ '\n' :: P) = true →
      ciHeadMatch u T = true := by
  induction u with
  | nil => intro T _; rfl
  | cons u0 u' ih =>
    intro T h
    cases T with
    | nil =>
      exfalso
      have h0 : caseEqChar u0 '\n' = true := (band_elim h).1
      have hu0 : u0 = '\n' :=
        caseEqChar_concrete u0 '\n' (by decide) (by decide) h0
      have hw : wordChar u0 = true := hu u0 (List.mem_cons_self _ _)
      rw [hu0] at hw
      cases hw
    | cons d T' =>
      have h' := band_elim h
      show (caseEqChar u0 d && ciHeadMatch u' T') = true
      rw [h'.1,
        ih (fun c hc => hu c (List.mem_cons_of_mem u0 hc)) T' h'.2]
      rfl

theorem hasOcc_append_newline (t : List Char)
    (ht : ∀ c ∈ t, wordChar c = true) (P : List Char)
    (hP : ∀ a ∈ P, caseEqChar '@' a = false) :
    ∀ R, hasOcc ('@' :: t) R = false →
      hasOcc ('@' :: t) (R ++ '\n' :: P) = false := by
  intro R
  induction R with
  | nil =>
    intro _
    show (ciHeadMatch ('@' :: t) ('\n' :: P) ||
      hasOcc ('@' :: t) P) = false
    have hh : ciHeadMatch ('@' :: t) ('\n' :: P) = false := by
      show (caseEqChar '@' '\n' && ciHeadMatch t P) = false
      rw [(by decide : caseEqChar '@' '\n' = false), Bool.false_and]
    rw [hh, Bool.false_or]
    exact hasOcc_atfree t P hP
  | cons r R' ih =>
    intro hR
    have h0 : (ciHeadMatch ('@' :: t) (r :: R') ||
        hasOcc ('@' :: t) R') = false := hR
    have hsplitB : ciHeadMatch ('@' :: t) (r :: R') = false ∧
        hasOcc ('@' :: t) R' = false := by
      constructor
      · cases hx : ciHeadMatch ('@' :: t) (r :: R') with
        | false => rfl
        | true => rw [hx, Bool.true_or] at h0; cases h0
      · cases hx : hasOcc ('@' :: t) R' with
        | false => rfl
        | true => rw [hx, Bool.or_true] at h0; cases h0
    show (ciHeadMatch ('@' :: t) (r :: (R' ++ '\n' :: P)) ||
      hasOcc ('@' :: t) (R' ++ '\n' :: P)) = false
    rw [ih hsplitB.2]
    cases hh : ciHeadMatch ('@' :: t) (r :: (R' ++ '\n' :: P)) with
    | false => rfl
    | true =>
      exfalso
      have h' := band_elim hh
      have ht' : ciHeadMatch t R' = true :=
        word_match_stops_before_newline t ht P R' h'.2
      have hcontr : ciHeadMatch ('@' :: t) (r :: R') = true := by
        show (caseEqChar '@' r && ciHeadMatch t R') = true
        rw [h'.1, ht']
        rfl
      rw [hsplitB.1] at hcontr
      cases hcontr

/-- Witness for C7 (amended): the plugin is called with sender
`@unknown` for the sample row even when the plugin then raises. -/
theorem mention_gating_not_sender_gating_witness :
    Event.pluginCalled "u1" "@unknown"
        (enhancedMessage "@unknown"
          (cleanContent "@agent".data sampleUnknownSenderRow)) ∈
      (processSingleMessage "@agent"
        { plugin := .error "boom", send := fun _ => .ok }
        [sampleUnknownSenderRow] 0 sampleUnknownSenderRow 10).events :=
  (mention_gating_not_sender_gating "@agent"
    { plugin := .error "boom", send := fun _ => .ok }
    [sampleUnknownSenderRow] 0 sampleUnknownSenderRow 10 rfl).2
    (by decide) (by decide)

/-- Counterexample to C6 as stated: for the response text
`"@agent@agent"` the scan replaces only the first occurrence (the
second fails the lookbehind on the original text), and the replacement
span ends in a bracket, so the dispatched text still carries the
handle as a word-bounded, case-insensitive token. -/
theorem self_mention_cex :
    (enforceConversationProtocol "@agent".data 0 "@agent@agent").2 =
      "[self-mention-blocked]@agent" ++ "\n" ++ penaltyBase ∧
    anyMatch "@agent".data none
      (lowerList (enforceConversationProtocol "@agent".data 0
        "@agent@agent").2.data) = true := by
  constructor
  · decide
  · decide

/-- C6 (amended): a response with no case-insensitive word-bounded
occurrence of the handle is passed through unchanged; and when one is
found and every occurrence of the handle present in the response is
word-bounded, the violation counter is incremented, the dispatched
text is the substituted and right-stripped response followed by the
penalty annotation, and it carries no occurrence of the handle at
all. -/
theorem self_mention_sanitization (t : List Char)
    (ht : ∀ c ∈ t, wordChar c = true) (vc : ℕ) (response : String) :
    (anyMatch ('@' :: t) none (lowerList response.data) = false →
      enforceConversationProtocol ('@' :: t) vc response =
        (vc, response)) ∧
    (anyMatch ('@' :: t) none (lowerList response.data) = true →
      response ≠ "" →
      allOccB ('@' :: t) none response.data = true →
      (enforceConversationProtocol ('@' :: t) vc response).1 = vc + 1 ∧
      (enforceConversationProtocol ('@' :: t) vc response).2 =
        String.mk (rstripList (subScan ('@' :: t) markerChars none
          response.data)) ++ "\n" ++
        (penaltyBase ++
          (if 3 ≤ vc + 1 then " #protocol-violation" else "")) ∧
      hasOcc ('@' :: t)
        ((enforceConversationProtocol ('@' :: t) vc response).2.data) =
        false) := by
  constructor
  · intro hno
    by_cases hresp : response = ""
    · unfold enforceConversationProtocol
      rw [if_pos hresp]
    · unfold enforceConversationProtocol
      rw [if_neg hresp]
      simp [hno]
  · intro hyes hresp hocc
    have hE : enforceConversationProtocol ('@' :: t) vc response =
        (vc + 1, String.mk (rstripList (subScan ('@' :: t) markerChars
          none response.data)) ++ "\n" ++
          (penaltyBase ++
            (if 3 ≤ vc + 1 then " #protocol-violation" else ""))) := by
      unfold enforceConversationProtocol
      rw [if_neg hresp, if_pos hyes]
    refine ⟨by rw [hE], by rw [hE], ?_⟩
    rw [hE]
    have hsan : hasOcc ('@' :: t)
        (subScan ('@' :: t) markerChars none response.data) = false :=
      subScan_no_occurrence t ht response.data.length response.data none
        le_rfl hocc
    have hA : hasOcc ('@' :: t)
        (rstripList (subScan ('@' :: t) markerChars none
          response.data)) = false :=
      hasOcc_rstrip_false t _ hsan
    have hdata : (String.mk (rstripList (subScan ('@' :: t) markerChars
        none response.data)) ++ "\n" ++
        (penaltyBase ++
          (if 3 ≤ vc + 1 then " #protocol-violation" else ""))).data =
        rstripList (subScan ('@' :: t) markerChars none response.data) ++
        '\n' :: (penaltyBase ++
          (if 3 ≤ vc + 1 then " #protocol-violation" else "")).data := by
      simp [String.data_append]
    rw [hdata]
    refine hasOcc_append_newline t ht _ ?_ _ hA
    by_cases hv : 3 ≤ vc + 1
    · rw [if_pos hv]
      decide
    · rw [if_neg hv]
      decide

/-- Witness for C6 (amended): at handle `@agent`, counter 0 and
response `"ok @Agent sure"` the hypotheses hold and the dispatched
text is handle-free. -/
theorem self_mention_sanitization_witness :
    (∀ c ∈ "agent".data, wordChar c = true) ∧
    anyMatch ('@' :: "agent".data) none
      (lowerList "ok @Agent sure".data) = true ∧
    allOccB ('@' :: "agent".data) none "ok @Agent sure".data = true ∧
    hasOcc ('@' :: "agent".data)
      ((enforceConversationProtocol ('@' :: "agent".data) 0
        "ok @Agent sure").2.data) = false :=
  ⟨by decide, by decide, by decide,
    ((self_mention_sanitization "agent".data (by decide) 0
        "ok @Agent sure").2
      (by decide) (by decide) (by decide)).2.2⟩

end AxMonitor

